import Mathlib

/-!
Shallow embedding of the little-dorrit-editor benchmark harness
(src/little_dorrit_editor/) and proofs about its specified behaviour.

Modelling conventions:
* Python str values are Lean `String`s (or `List Char` where character-level
  work is needed); Python ints are `Int`/`Nat`; Python floats are exact
  rationals `ℚ` (the arithmetic under proof is decimal and the claims are
  about its exact values, not IEEE rounding).
* Fallible Python code (raising) returns `Option`/`Except`.
* External effects (the LLM calls, the filesystem, the process environment,
  random sampling) enter the embeddings as explicit function parameters.
-/

namespace LittleDorrit

/-! ## Character and string helpers -/

abbrev Str := List Char

/-- ASCII lower-casing of one character: models CPython `str.lower` on the
character range the repository's data uses. -/
def asciiLower (c : Char) : Char :=
  if 'A' ≤ c && c ≤ 'Z' then Char.ofNat (c.toNat + 32) else c

/-- Python `s.lower()`. -/
def lowerStr (s : String) : String :=
  String.mk (s.toList.map asciiLower)

/-- `a` is a prefix of `b` (executable). -/
def isPrefixB : Str → Str → Bool
  | [], _ => true
  | _ :: _, [] => false
  | a :: as, b :: bs => a == b && isPrefixB as bs

/-- `a` occurs contiguously inside `b` (executable). -/
def isInfixB (a : Str) : Str → Bool
  | [] => a.isEmpty
  | b :: bs => isPrefixB a (b :: bs) || isInfixB a bs

/-- Python substring membership `a in b`. -/
def isSubstrOf (a b : String) : Bool :=
  isInfixB a.toList b.toList

/-! ## Data model (types.py) -/

/-- types.py lines 8-17: the closed enumeration of edit types. -/
inductive EditType where
  | insertion
  | deletion
  | replacement
  | punctuation
  | capitalization
  | reordering
  | italicize
deriving DecidableEq

/-- The `EditType(value)` enum call: Python raises ValueError for any string
that is not one of the seven lowercase literals; modelled as `none`. -/
def EditType.fromString (s : String) : Option EditType :=
  if s = "insertion" then some .insertion
  else if s = "deletion" then some .deletion
  else if s = "replacement" then some .replacement
  else if s = "punctuation" then some .punctuation
  else if s = "capitalization" then some .capitalization
  else if s = "reordering" then some .reordering
  else if s = "italicize" then some .italicize
  else none

/-- types.py lines 60-69 (EditOperation), as `model_dump()` presents an edit
to evaluate.py: the fields the evaluator reads. The `page`, `confidence` and
`notes` metadata fields are never read by the code under proof and are
omitted from the embedding. -/
structure EditOperation where
  type : String
  original_text : String
  corrected_text : String
  line_number : Option Int
deriving DecidableEq

/-- types.py lines 20-43: one edit evaluation record. -/
structure EditMatch where
  observed_edit_num : Option Nat
  expected_edit_num : Option Nat
  tp : ℚ
  fp : ℚ
  fn : ℚ
  type : Option EditType
  original_text : Option String
  corrected_text : Option String
  observed_line_number : Option Int
  line_diff : Option Int
  line_number_penalty : ℚ
  judgement : Option String
deriving DecidableEq

/-- types.py lines 46-56: one run's full scoring output. -/
structure EvaluationResult where
  model_name : String
  date : String
  annotator : Option String
  annotation_date : Option String
  details : List EditMatch
deriving DecidableEq

/-! ## Matching (evaluate.py match_edits, lines 114-172) -/

/-- The value of the candidate-match condition of evaluate.py lines 152-162
when it evaluates without error: edit type equal case-insensitively, absolute
line difference at most 3, and one of the four substring-overlap conditions.
The `and` chain subtracts the line numbers as soon as the types match, and
the ground-truth side reads its line number unconditionally (only predicted
edits are pre-filtered), so with a missing line number the condition raises
TypeError rather than deciding the match; `editsMatchE` models that raising
evaluation, and this Boolean agrees with it whenever both line numbers are
present. -/
def editsMatch (gt pred : EditOperation) : Bool :=
  (lowerStr gt.type == lowerStr pred.type)
  && (match gt.line_number, pred.line_number with
      | some g, some p => (g - p).natAbs ≤ 3
      | _, _ => false)
  && (isSubstrOf gt.original_text pred.original_text
      || isSubstrOf pred.original_text gt.original_text
      || isSubstrOf gt.corrected_text pred.corrected_text
      || isSubstrOf pred.corrected_text gt.corrected_text)

/-- The inner loop of match_edits (lines 151-167): enumerate the pool in
order, pop the first edit passing the candidate test. Returns the accepted
edit and the pool with it removed. -/
def scanPool (gt : EditOperation) :
    List EditOperation → Option (EditOperation × List EditOperation)
  | [] => none
  | p :: rest =>
    if editsMatch gt p then some (p, rest)
    else
      match scanPool gt rest with
      | some (q, rest') => some (q, p :: rest')
      | none => none

/-- The outer loop of match_edits (lines 149-170): one pass over the
ground-truth edits, threading the pool of unconsumed predictions. Returns
(candidate pairs, unconsumed predictions, unmatched ground truth). -/
def matchLoop :
    List EditOperation → List EditOperation →
    List (EditOperation × EditOperation) × List EditOperation × List EditOperation
  | [], pool => ([], pool, [])
  | g :: gs, pool =>
    match scanPool g pool with
    | some (p, pool') =>
      let r := matchLoop gs pool'
      ((g, p) :: r.1, r.2.1, r.2.2)
    | none =>
      let r := matchLoop gs pool
      (r.1, r.2.1, g :: r.2.2)

/-- evaluate.py match_edits (lines 114-172): filter out predictions without a
line number, then run the first-fit matching pass. -/
def match_edits (gts preds : List EditOperation) :
    List (EditOperation × EditOperation) × List EditOperation × List EditOperation :=
  matchLoop gts (preds.filter (fun e => e.line_number.isSome))

/-- Modelled from the spec's words (§4.7 matching algorithm), for the
refinement comparison with `match_edits`: accept the first unconsumed
prediction satisfying the test and remove it from the pool. -/
def specFirstFitLoop :
    List EditOperation → List EditOperation →
    List (EditOperation × EditOperation) × List EditOperation × List EditOperation
  | [], pool => ([], pool, [])
  | g :: gs, pool =>
    match pool.find? (editsMatch g) with
    | some p =>
      let r := specFirstFitLoop gs (pool.erase p)
      ((g, p) :: r.1, r.2.1, r.2.2)
    | none =>
      let r := specFirstFitLoop gs pool
      (r.1, r.2.1, g :: r.2.2)

/-- Modelled from the spec's words (§4.7 steps 1-3): discard predictions
lacking a line number, then first-fit match. -/
def matchEditsSpec (gts preds : List EditOperation) :
    List (EditOperation × EditOperation) × List EditOperation × List EditOperation :=
  specFirstFitLoop gts (preds.filter (fun e => e.line_number.isSome))

/-- The candidate test as Python evaluates it (evaluate.py lines 152-162):
the conjunction checks the edit types first and, once they match
case-insensitively, computes `abs(gt["line_number"] - pred["line_number"])`,
which raises TypeError when either side is None. The text-overlap checks are
pure. -/
def editsMatchE (gt pred : EditOperation) : Except String Bool :=
  if lowerStr gt.type == lowerStr pred.type then
    match gt.line_number, pred.line_number with
    | some g, some p =>
      .ok (((g - p).natAbs ≤ 3 : Bool)
        && (isSubstrOf gt.original_text pred.original_text
            || isSubstrOf pred.original_text gt.original_text
            || isSubstrOf gt.corrected_text pred.corrected_text
            || isSubstrOf pred.corrected_text gt.corrected_text))
    | none, some _ =>
      .error ("TypeError: unsupported operand type(s) for -: 'NoneType' and 'int'")
    | some _, none =>
      .error ("TypeError: unsupported operand type(s) for -: 'int' and 'NoneType'")
    | none, none =>
      .error ("TypeError: unsupported operand type(s) for -: 'NoneType' and 'NoneType'")
  else .ok false

/-- The inner scan of evaluate.py lines 151-167 with the raising condition:
the first TypeError aborts the whole call. -/
def scanPoolE (gt : EditOperation) :
    List EditOperation → Except String (Option (EditOperation × List EditOperation))
  | [] => .ok none
  | p :: rest =>
    match editsMatchE gt p with
    | .error e => .error e
    | .ok true => .ok (some (p, rest))
    | .ok false =>
      match scanPoolE gt rest with
      | .error e => .error e
      | .ok none => .ok none
      | .ok (some (q, rest')) => .ok (some (q, p :: rest'))

/-- The outer pass of evaluate.py lines 149-170 with the raising condition. -/
def matchLoopE :
    List EditOperation → List EditOperation →
    Except String
      (List (EditOperation × EditOperation) × List EditOperation × List EditOperation)
  | [], pool => .ok ([], pool, [])
  | g :: gs, pool =>
    match scanPoolE g pool with
    | .error e => .error e
    | .ok (some (p, pool')) =>
      match matchLoopE gs pool' with
      | .error e => .error e
      | .ok r => .ok ((g, p) :: r.1, r.2.1, r.2.2)
    | .ok none =>
      match matchLoopE gs pool with
      | .error e => .error e
      | .ok r => .ok (r.1, r.2.1, g :: r.2.2)

/-- evaluate.py match_edits (lines 114-172) as run by Python: predictions
without line numbers are filtered out, but a ground-truth edit without one
reaches the subtraction and raises. -/
def match_edits_run (gts preds : List EditOperation) :
    Except String
      (List (EditOperation × EditOperation) × List EditOperation × List EditOperation) :=
  matchLoopE gts (preds.filter (fun e => e.line_number.isSome))

/-! ## Line-number penalty (evaluate.py get_penalty, lines 285-297) -/

/-- evaluate.py lines 285-297: `min(1.0, 0.1 * line_diff ** 2)`, floats as
exact rationals. -/
def get_penalty (gt_line pred_line : Int) : ℚ :=
  min 1 ((1 / 10) * (((gt_line - pred_line).natAbs ^ 2 : ℕ) : ℚ))

/-! ## Scoring pipeline (evaluate.py evaluate, lines 267-479) -/

/-- A candidate matched pair as the first pass of `evaluate` sees it,
together with the Python object identity `id(gt_edit)` of its ground-truth
member, which the pass uses as the key of its remaining-match counter
(lines 330-333). Distinct ground-truth dicts have distinct identities. -/
structure MatchedPair where
  gtId : Nat
  gt : EditOperation
  pred : EditOperation
deriving DecidableEq

/-- The LLM judge's verdict for one pair: `is_correct` and `reasoning`. The
chat-completion call is an external effect; it enters the embedding as a
function of the two edits (evaluate.py caches one call per pair, so a
function is exactly the observable behaviour). -/
abbrev Judge := EditOperation → EditOperation → Bool × String

/-- The line penalty of a pair as the first pass computes it
(lines 346-361): `gt_edit.get("line_number", 0)` and
`pred_edit.get("line_number", 1000)`. For pairs produced by match_edits both
line numbers are present, so the written defaults are inert. -/
def pairPenalty (p : MatchedPair) : ℚ :=
  get_penalty (p.gt.line_number.getD 0) (p.pred.line_number.getD 1000)

/-- The line diff stored by the first pass (line 364). -/
def pairLineDiff (p : MatchedPair) : Nat :=
  ((p.gt.line_number.getD 0) - (p.pred.line_number.getD 1000)).natAbs

/-- Line 369: a pair survives iff the judge says correct and the penalty is
not full (`is_correct and not line_penalty >= 1.0`). -/
def survives (judge : Judge) (p : MatchedPair) : Bool :=
  (judge p.gt p.pred).1 && !(decide (1 ≤ pairPenalty p))

/-- Lines 330-333: the per-ground-truth-identity count of candidate pairs. -/
def countMap (pairs : List MatchedPair) (g : Nat) : Nat :=
  pairs.countP (fun p => p.gtId == g)

/-- The first pass of evaluate (lines 341-388): walk the candidate pairs in
order; a failing pair is dropped, its prediction appended to the false
positives, the counter of its ground-truth identity decremented, and the
ground-truth edit appended to the false negatives when that counter reaches
zero. Surviving pairs are kept in order. -/
def firstPass (judge : Judge) :
    List MatchedPair → (Nat → Nat) → List EditOperation → List EditOperation →
    List MatchedPair × List EditOperation × List EditOperation
  | [], _, fps, fns => ([], fps, fns)
  | p :: rest, counts, fps, fns =>
    if survives judge p then
      let r := firstPass judge rest counts fps fns
      (p :: r.1, r.2.1, r.2.2)
    else
      firstPass judge rest
        (fun g => if g = p.gtId then counts g - 1 else counts g)
        (fps ++ [p.pred])
        (if counts p.gtId - 1 = 0 then fns ++ [p.gt] else fns)

/-- Second pass, one surviving pair (lines 391-426): score after penalty and
the EditMatch record. The penalty and diff were stored on the cached judgment
during the first pass and are re-read here; they equal the recomputation from
the same pair. `EditType(pred_edit.get("type", "unknown"))` raises ValueError
for a type string outside the enumeration: modelled as `none`. -/
def tpEditMatch (judge : Judge) (idx : Nat) (p : MatchedPair) : Option EditMatch :=
  let line_penalty := pairPenalty p
  let score : ℚ := max 0 (1 - line_penalty)
  (EditType.fromString p.pred.type).map fun t =>
    { observed_edit_num := some idx
      expected_edit_num := some idx
      tp := score
      fp := (1 - score) / 2
      fn := (1 - score) / 2
      type := some t
      original_text := some p.pred.original_text
      corrected_text := some p.pred.corrected_text
      observed_line_number := some (p.pred.line_number.getD 0)
      line_diff := some (pairLineDiff p : Int)
      line_number_penalty := line_penalty
      judgement := some (judge p.gt p.pred).2 }

/-- The loop over surviving pairs (lines 391-426), advancing
`valid_match_index`; the first ValueError aborts. -/
def buildTpMatches (judge : Judge) : Nat → List MatchedPair → Option (List EditMatch)
  | _, [] => some []
  | idx, p :: rest =>
    match tpEditMatch judge idx p with
    | none => none
    | some m =>
      match buildTpMatches judge (idx + 1) rest with
      | none => none
      | some ms => some (m :: ms)

/-- One pure false positive (lines 433-449). -/
def fpEditMatch (base i : Nat) (e : EditOperation) : Option EditMatch :=
  (EditType.fromString e.type).map fun t =>
    { observed_edit_num := some (base + i)
      expected_edit_num := none
      tp := 0
      fp := 1
      fn := 0
      type := some t
      original_text := some e.original_text
      corrected_text := some e.corrected_text
      observed_line_number := e.line_number
      line_diff := none
      line_number_penalty := 0
      judgement := some ("False positive: no matching ground truth edit found") }

/-- The loop over false positives (lines 433-449). -/
def buildFpMatches (base : Nat) : Nat → List EditOperation → Option (List EditMatch)
  | _, [] => some []
  | i, e :: rest =>
    match fpEditMatch base i e with
    | none => none
    | some m =>
      match buildFpMatches base (i + 1) rest with
      | none => none
      | some ms => some (m :: ms)

/-- One pure false negative (lines 452-468). -/
def fnEditMatch (base i : Nat) (e : EditOperation) : Option EditMatch :=
  (EditType.fromString e.type).map fun t =>
    { observed_edit_num := none
      expected_edit_num := some (base + i)
      tp := 0
      fp := 0
      fn := 1
      type := some t
      original_text := some e.original_text
      corrected_text := some e.corrected_text
      observed_line_number := none
      line_diff := none
      line_number_penalty := 0
      judgement := some ("False negative: ground truth edit not found in prediction") }

/-- The loop over false negatives (lines 452-468). -/
def buildFnMatches (base : Nat) : Nat → List EditOperation → Option (List EditMatch)
  | _, [] => some []
  | i, e :: rest =>
    match fnEditMatch base i e with
    | none => none
    | some m =>
      match buildFnMatches base (i + 1) rest with
      | none => none
      | some ms => some (m :: ms)

/-- The candidate pairs of evaluate, with the object identity of each
ground-truth edit rendered as its position among the pairs (match_edits
consumes each ground-truth list element at most once, so positions are
faithful to `id()`). -/
def pairsOf (tps : List (EditOperation × EditOperation)) : List MatchedPair :=
  tps.enum.map fun ip => { gtId := ip.1, gt := ip.2.1, pred := ip.2.2 }

/-- The candidate pairs of the pipeline, identified by position. -/
def pipelinePairs (gts preds : List EditOperation) : List MatchedPair :=
  pairsOf (match_edits gts preds).1

/-- Matching followed by the first pass: the state of (surviving pairs,
false positives, false negatives) entering the second pass of evaluate. -/
def pipelineFirstPass (judge : Judge) (gts preds : List EditOperation) :
    List MatchedPair × List EditOperation × List EditOperation :=
  firstPass judge (pipelinePairs gts preds) (countMap (pipelinePairs gts preds))
    (match_edits gts preds).2.1 (match_edits gts preds).2.2

/-- The detail-building pipeline of evaluate (lines 309-468), given the
judge: match, dissolve invalid candidate pairs, then build the EditMatch
list (surviving matches, then false positives, then false negatives). File
loading and the chat-completion transport stay outside the embedding; an
uncaught ValueError from the EditType conversion is modelled as `none`. -/
def evaluateDetails (judge : Judge) (gts preds : List EditOperation) :
    Option (List EditMatch) :=
  let fp1 := pipelineFirstPass judge gts preds
  match buildTpMatches judge 0 fp1.1 with
  | none => none
  | some tpms =>
    match buildFpMatches fp1.1.length 0 fp1.2.1 with
    | none => none
    | some fpms =>
      match buildFnMatches fp1.1.length 0 fp1.2.2 with
      | none => none
      | some fnms => some (tpms ++ fpms ++ fnms)

/-! ## JSON values and the json codec

The Response-JSON Extractor (utils.py) delegates parsing to the Python
`json` stdlib, which is outside the repository; it is modelled here by an
executable codec over a JSON value type. Model restrictions: numbers are
integers (no floats or exponents — all data of this repository uses
integers); strings hold Unicode scalar values, with `dumps` escaping the
two JSON metacharacters, the named control escapes and other control
characters (`ensure_ascii` shortening of characters at or above U+0020 is
not modelled); a `\uXXXX` escape denoting a lone surrogate is a parse
failure rather than a surrogate `str`. -/

mutual
inductive Json where
  | null : Json
  | bool (b : Bool) : Json
  | num (n : Int) : Json
  | str (s : Str) : Json
  | arr (elems : JsonArr) : Json
  | obj (mems : JsonObj) : Json
inductive JsonArr where
  | nil : JsonArr
  | cons (hd : Json) (tl : JsonArr) : JsonArr
inductive JsonObj where
  | nil : JsonObj
  | cons (k : Str) (v : Json) (tl : JsonObj) : JsonObj
end

/-- The JSON whitespace characters (also what `skipWs` between tokens
accepts). -/
def jsonWsChar (c : Char) : Bool :=
  c = ' ' || c = '\t' || c = '\n' || c = '\r'

/-- ASCII whitespace as Python's regex `\s` and `str.strip` treat it. -/
def pyWs (c : Char) : Bool :=
  c = ' ' || c = '\t' || c = '\n' || c = '\r' || c.toNat = 11 || c.toNat = 12

def skipWs (s : Str) : Str := s.dropWhile jsonWsChar

def skipPyWs (s : Str) : Str := s.dropWhile pyWs

/-- Python `str.strip()`. -/
def stripStr (s : Str) : Str :=
  ((s.dropWhile pyWs).reverse.dropWhile pyWs).reverse

def digitChar (d : Nat) : Char := Char.ofNat (48 + d)

def digitVal (c : Char) : Nat := c.toNat - 48

def hexChar (d : Nat) : Char :=
  if d < 10 then Char.ofNat (48 + d) else Char.ofNat (87 + d)

def hexVal (c : Char) : Option Nat :=
  if c.isDigit then some (c.toNat - 48)
  else if 'a' ≤ c && c ≤ 'f' then some (c.toNat - 87)
  else if 'A' ≤ c && c ≤ 'F' then some (c.toNat - 55)
  else none

/-- The little-endian decimal digits of `n` (fuel-driven so that it is
structural; any fuel at least `n` is exact). -/
def natDigitsF : Nat → Nat → List Nat
  | 0, _ => []
  | _ + 1, 0 => []
  | f + 1, n + 1 => ((n + 1) % 10) :: natDigitsF f ((n + 1) / 10)

/-- Decimal rendering of a natural number. -/
def natRepr (n : Nat) : Str :=
  if n = 0 then ['0'] else (natDigitsF n n).reverse.map digitChar

/-- Decimal rendering of an integer, as `json.dumps` prints one. -/
def intRepr : Int → Str
  | .ofNat n => natRepr n
  | .negSucc m => '-' :: natRepr (m + 1)

/-- The value of a big-endian digit list. -/
def digitsToNat (ds : List Nat) : Nat :=
  ds.foldl (fun a d => 10 * a + d) 0

/-- How `json.dumps` escapes one character inside a string literal. -/
def escapeChar (c : Char) : Str :=
  if c = '"' then ['\\', '"']
  else if c = '\\' then ['\\', '\\']
  else if c = '\n' then ['\\', 'n']
  else if c = '\t' then ['\\', 't']
  else if c = '\r' then ['\\', 'r']
  else if c.toNat = 8 then ['\\', 'b']
  else if c.toNat = 12 then ['\\', 'f']
  else if c.toNat < 32 then
    ['\\', 'u', '0', '0', hexChar (c.toNat / 16), hexChar (c.toNat % 16)]
  else [c]

/-- A JSON string literal. -/
def quoteStr (s : Str) : Str :=
  '"' :: (s.flatMap escapeChar) ++ ['"']

mutual
/-- `json.dumps` with its default separators (", " and ": "). -/
def dumpsV : Json → Str
  | .null => "null".toList
  | .bool true => "true".toList
  | .bool false => "false".toList
  | .num n => intRepr n
  | .str s => quoteStr s
  | .arr l => '[' :: (dumpsA l ++ [']'])
  | .obj m => '\x7b' :: (dumpsO m ++ ['\x7d'])
/-- The elements of an array, comma-separated. -/
def dumpsA : JsonArr → Str
  | .nil => []
  | .cons v tl => dumpsV v ++ dumpsArest tl
/-- ", elem" for each further element. -/
def dumpsArest : JsonArr → Str
  | .nil => []
  | .cons v tl => ',' :: ' ' :: (dumpsV v ++ dumpsArest tl)
/-- The members of an object, comma-separated. -/
def dumpsO : JsonObj → Str
  | .nil => []
  | .cons k v tl => quoteStr k ++ (':' :: ' ' :: dumpsV v) ++ dumpsOrest tl
/-- ", key: value" for each further member. -/
def dumpsOrest : JsonObj → Str
  | .nil => []
  | .cons k v tl =>
    ',' :: ' ' :: (quoteStr k ++ (':' :: ' ' :: dumpsV v) ++ dumpsOrest tl)
end

mutual
/-- Structural size, bounding the parser fuel a value's text needs. -/
def sizeV : Json → Nat
  | .arr l => 1 + sizeA l
  | .obj m => 1 + sizeO m
  | _ => 1
def sizeA : JsonArr → Nat
  | .nil => 0
  | .cons v tl => 1 + sizeV v + sizeA tl
def sizeO : JsonObj → Nat
  | .nil => 0
  | .cons _ v tl => 1 + sizeV v + sizeO tl
end

/-- Consume an expected literal. -/
def expectLit : Str → Str → Option Str
  | [], s => some s
  | _ :: _, [] => none
  | c :: cs, d :: ds => if c = d then expectLit cs ds else none

/-- One JSON string body (after the opening quote), with escape decoding;
strict about raw control characters, as the json module is. -/
def parseStringBody : Str → Option (Str × Str)
  | [] => none
  | c :: r =>
    if c = '"' then some ([], r)
    else if c = '\\' then
      match r with
      | [] => none
      | e :: r2 =>
        if e = 'u' then
          match r2 with
          | a :: b :: c2 :: d :: r3 =>
            match hexVal a, hexVal b, hexVal c2, hexVal d with
            | some x1, some x2, some x3, some x4 =>
              if Nat.isValidChar (((x1 * 16 + x2) * 16 + x3) * 16 + x4) then
                match parseStringBody r3 with
                | some (tail, rest) =>
                  some (Char.ofNat (((x1 * 16 + x2) * 16 + x3) * 16 + x4) :: tail, rest)
                | none => none
              else none
            | _, _, _, _ => none
          | _ => none
        else
          match simpleEscape e with
          | some ch =>
            match parseStringBody r2 with
            | some (tail, rest) => some (ch :: tail, rest)
            | none => none
          | none => none
    else if c.toNat < 32 then none
    else
      match parseStringBody r with
      | some (tail, rest) => some (c :: tail, rest)
      | none => none
where
  simpleEscape (e : Char) : Option Char :=
    if e = '"' then some '"'
    else if e = '\\' then some '\\'
    else if e = '/' then some '/'
    else if e = 'b' then some (Char.ofNat 8)
    else if e = 'f' then some (Char.ofNat 12)
    else if e = 'n' then some '\n'
    else if e = 'r' then some '\r'
    else if e = 't' then some '\t'
    else none

/-- A JSON number (integer model; see the codec header). -/
def parseNum (s : Str) : Option (Json × Str) :=
  match s with
  | '-' :: rest =>
    if (rest.takeWhile Char.isDigit).isEmpty then none
    else some (.num (-(digitsToNat ((rest.takeWhile Char.isDigit).map digitVal) : Int)),
      rest.dropWhile Char.isDigit)
  | _ =>
    if (s.takeWhile Char.isDigit).isEmpty then none
    else some (.num (digitsToNat ((s.takeWhile Char.isDigit).map digitVal)),
      s.dropWhile Char.isDigit)

mutual
/-- Recursive-descent JSON parsing, fuel-driven (one unit per grammar
step; any fuel beyond the value's structural size is exact). -/
def parseVal : Nat → Str → Option (Json × Str)
  | 0, _ => none
  | fuel + 1, s =>
    match skipWs s with
    | [] => none
    | c :: r =>
      if c = 'n' then (expectLit ("ull".toList) r).map (fun rest => (.null, rest))
      else if c = 't' then (expectLit ("rue".toList) r).map (fun rest => (.bool true, rest))
      else if c = 'f' then (expectLit ("alse".toList) r).map (fun rest => (.bool false, rest))
      else if c = '"' then
        match parseStringBody r with
        | some (cs, rest) => some (.str cs, rest)
        | none => none
      else if c = '[' then
        match skipWs r with
        | ']' :: rest => some (.arr .nil, rest)
        | r2 => parseElems fuel r2
      else if c = '\x7b' then
        match skipWs r with
        | '\x7d' :: rest => some (.obj .nil, rest)
        | r2 => parseMems fuel r2
      else if c = '-' || c.isDigit then parseNum (c :: r)
      else none

def parseElems : Nat → Str → Option (Json × Str)
  | 0, _ => none
  | fuel + 1, s =>
    match parseVal fuel s with
    | some (v, r) =>
      (match skipWs r with
       | ',' :: r2 =>
         (match parseElems fuel r2 with
          | some (Json.arr tl, r3) => some (.arr (.cons v tl), r3)
          | _ => none)
       | ']' :: r2 => some (.arr (.cons v .nil), r2)
       | _ => none)
    | none => none

def parseMems : Nat → Str → Option (Json × Str)
  | 0, _ => none
  | fuel + 1, s =>
    match skipWs s with
    | '"' :: r =>
      (match parseStringBody r with
       | some (k, r1) =>
         (match skipWs r1 with
          | ':' :: r2 =>
            (match parseVal fuel r2 with
             | some (v, r3) =>
               (match skipWs r3 with
                | ',' :: r4 =>
                  (match parseMems fuel r4 with
                   | some (Json.obj tl, r5) => some (.obj (.cons k v tl), r5)
                   | _ => none)
                | '\x7d' :: r4 => some (.obj (.cons k v .nil), r4)
                | _ => none)
             | none => none)
          | _ => none)
       | none => none)
    | _ => none
end

/-- `json.loads`: one value, surrounded by nothing but whitespace. -/
def loads (s : Str) : Option Json :=
  match parseVal (s.length + 1) s with
  | some (v, rest) => if (skipWs rest).isEmpty then some v else none
  | none => none

/-! ## Response-JSON extraction (utils.py) -/

/-- Split at the first occurrence of `pat`: the text before it and the text
after it. -/
def findSub (pat : Str) : Str → Option (Str × Str)
  | [] => if pat.isEmpty then some ([], []) else none
  | c :: rest =>
    if isPrefixB pat (c :: rest) then some ([], (c :: rest).drop pat.length)
    else
      match findSub pat rest with
      | some (pre, post) => some (c :: pre, post)
      | none => none

/-- The optional `(?:json)?` language tag after an opening fence. -/
def dropJsonTag (s : Str) : Str :=
  if isPrefixB ("json".toList) s then s.drop 4 else s

/-- The captures of `re.findall` for the utils.py code-block pattern
(three backticks, an optional `json` tag, `\s*`, then a non-greedy capture
up to the next three backticks), fuel-driven over the scan position. -/
def findBlocksF : Nat → Str → List Str
  | 0, _ => []
  | fuel + 1, s =>
    match findSub ("```".toList) s with
    | none => []
    | some pa =>
      match findSub ("```".toList) (skipPyWs (dropJsonTag pa.2)) with
      | none => []
      | some ca => ca.1 :: findBlocksF fuel ca.2

def findBlocks (s : Str) : List Str := findBlocksF (s.length + 1) s

/-- utils.py lines 30-36: try each code block until one parses. -/
def tryLoadsBlocks : List Str → Option Json
  | [] => none
  | b :: rest =>
    match loads (stripStr b) with
    | some v => some v
    | none => tryLoadsBlocks rest

/-- The one possible match of the utils.py brace pattern (greedy, from the
first open brace to the last close brace; `re.findall` can yield at most
this single span for that pattern). -/
def braceSpan (s : Str) : Option Str :=
  match s.dropWhile (fun c => !(c == '\x7b')) with
  | [] => none
  | c :: tail =>
    match (c :: tail).reverse.dropWhile (fun c => !(c == '\x7d')) with
    | [] => none
    | d :: revspan => some ((d :: revspan).reverse)

/-- utils.py lines 40-48: try each brace-pattern match. -/
def tryLoadsSpan : Option Str → Option Json
  | none => none
  | some span => loads span

def parseErrMsgHead : Str :=
  "Could not extract valid JSON from response: ".toList

/-- utils.py extract_json_from_llm_response (lines 8-54): whole text, then
fenced code blocks, then the brace span, else a JSONDecodeError whose
message holds the first 3000 characters of the text. -/
def extract_json_from_llm_response (text : Str) : Except Str Json :=
  match loads text with
  | some v => .ok v
  | none =>
    match tryLoadsBlocks (findBlocks text) with
    | some v => .ok v
    | none =>
      match tryLoadsSpan (braceSpan text) with
      | some v => .ok v
      | none => .error (parseErrMsgHead ++ text.take 3000 ++ "...".toList)

/-! ## Prediction generation (predict.py) -/

/-- Python `str(e)` of the JSONDecodeError the extractor raises (it is
constructed at position 0, so line 1, column 1). -/
def strJsonDecodeError (msg : Str) : Str :=
  msg ++ ": line 1 column 1 (char 0)".toList

def parseErrPrefix : Str :=
  "Failed to parse model output as JSON: ".toList

/-- `dict.get` on an object decoded by `json.loads` (duplicate keys keep
the last value, as Python dicts do). -/
def lookupMem (k : Str) : JsonObj → Option Json
  | .nil => none
  | .cons k2 v tl =>
    match lookupMem k tl with
    | some w => some w
    | none => if k2 = k then some v else none

/-- The fields of the written prediction file that depend on the model
response (predict.py lines 104-131). The static metadata fields (image,
page_number, source, annotator, annotation_date, verified) do not depend on
the response and are omitted. -/
structure PredictionFile where
  edits : Json
  error : Option Str
  raw_response : Option Str

/-- predict.py lines 104-131, from the raw response text to the content of
the output file: a JSONDecodeError from the extractor is caught and recovered
into an empty-edits file carrying `error` and the first 1000 characters of
the raw response; on success the edits come from `predictions.get("edits",
[])` and neither field is set. (A successful extraction of a non-object
value would raise AttributeError at `.get`, which nothing catches.) -/
def generate_from_response (content : Str) : Except Str PredictionFile :=
  match extract_json_from_llm_response content with
  | .ok (.obj mems) =>
    .ok { edits := (lookupMem ("edits".toList) mems).getD (Json.arr .nil)
          error := none
          raw_response := none }
  | .ok _ => .error ("AttributeError".toList)
  | .error e =>
    .ok { edits := Json.arr .nil
          error := some (parseErrPrefix ++ (strJsonDecodeError e).take 200 ++ "...".toList)
          raw_response := some (content.take 1000) }

/-! ## Leaderboard (leaderboard.py) -/

/-- A stored leaderboard entry as update_leaderboard reads it: the
`model_name` key is always present; `f1_score` exists only on entries of a
legacy result shape (the authoritative EvaluationResult carries none). The
remaining keys are never read before the crash point and are omitted. -/
structure LBEntry where
  model_name : String
  f1_score : Option ℚ
deriving DecidableEq

/-- `result.model_dump()` viewed as a leaderboard entry (leaderboard.py line
56): the dumped EvaluationResult has no top-level `f1_score` key. -/
def dumpResult (r : EvaluationResult) : LBEntry :=
  { model_name := r.model_name, f1_score := none }

/-- leaderboard.py lines 59-66: replace the first entry with the same model
name in place, else append at the end. -/
def replaceOrAppend (entry : LBEntry) (name : String) : List LBEntry → List LBEntry
  | [] => [entry]
  | e :: rest =>
    if e.model_name == name then entry :: rest
    else e :: replaceOrAppend entry name rest

/-- leaderboard.py line 69, `leaderboard.sort(key=lambda x: x["f1_score"],
reverse=True)`: CPython materialises the key of every element first — a
KeyError when an entry lacks the field — and then sorts stably descending. -/
def sortByF1 (l : List LBEntry) : Except String (List LBEntry) :=
  if l.all (fun e => e.f1_score.isSome) then
    .ok (l.mergeSort (fun a b => decide ((b.f1_score.getD 0) ≤ (a.f1_score.getD 0))))
  else .error ("KeyError: f1_score")

/-- leaderboard.py update_leaderboard (lines 38-76) up to its first write:
the loaded current array enters as `lb`; the JSON write and the HTML
regeneration happen only after the sort. -/
def update_leaderboard (r : EvaluationResult) (lb : List LBEntry) :
    Except String (List LBEntry) :=
  sortByF1 (replaceOrAppend (dumpResult r) r.model_name lb)

/-! ## Few-shot exemplar safety (prompt.py and predict.py) -/

/-- The safety condition `'eval' in str(path).lower()` (prompt.py line 83,
predict.py line 66). -/
def containsEval (path : String) : Bool :=
  isInfixB ("eval".toList) (path.toList.map asciiLower)

/-- prompt.py lines 84-87. -/
def criticalSafetyMsg : String :=
  "CRITICAL SAFETY ERROR: Attempted to use evaluation data for few-shot examples. Only sample data should be used for examples to prevent data leakage."

/-- prompt.py load_examples (lines 69-102): the safety check on the path
comes before every read of the dataset, so the on-disk dataset enters as a
value that the error path never touches; the uniform random selection of
`random.sample` enters as an oracle, and the conversion of records to
exemplar message pairs is outside the property under proof. -/
def load_examples {α : Type} (datasetPath : String) (dataset : List α)
    (numExamples : Nat) (sample : List α → List α) : Except String (List α) :=
  if containsEval datasetPath then .error criticalSafetyMsg
  else .ok (if dataset.length ≤ numExamples then dataset else sample dataset)

/-- How generate_predictions resolves its few-shot examples request. -/
inductive ExemplarOutcome where
  | zeroShot
  | warnFallback
  | safetyStop
  | loadFromSample
deriving DecidableEq

/-- predict.py lines 56-74: no few-shot request means zero-shot; a missing
sample dataset warns and falls back to zero-shot; an existing dataset whose
path contains "eval" raises the safety ValueError; otherwise examples are
loaded. Whether the path exists on disk enters as a Boolean. -/
def examplesDecision (shots : Nat) (samplePath : Option String) (pathExists : Bool) :
    ExemplarOutcome :=
  match samplePath with
  | none => .zeroShot
  | some path =>
    if 0 < shots then
      if !pathExists then .warnFallback
      else if containsEval path then .safetyStop
      else .loadFromSample
    else .zeroShot

/-! ## Configuration manager (config.py) -/

/-- config.py lines 10-17. -/
structure ModelConfig where
  endpoint : String
  model_name : String
  api_key : String
  logical_name : String
deriving DecidableEq

/-- One model's TOML table as _load_config reads it: each of the four fields
optionally present. -/
structure TomlEntry where
  endpoint : Option String
  model_name : Option String
  logical_name : Option String
  api_key : Option String
deriving DecidableEq

/-- The characters after the first ':' of a model id, when there is one:
`":" in model_id` guarding `model_id.split(":", 1)[1]` (config.py lines
74-76). -/
def restAfterColon : Str → Option Str
  | [] => none
  | c :: rest => if c = ':' then some rest else restAfterColon rest

def afterColon (s : String) : Option String :=
  (restAfterColon s.toList).map String.mk

/-- config.py lines 84-93: an api_key value of the form "$\x7bENV_VAR\x7d" is
resolved through the process environment, an unset variable giving "" (plus a
printed warning); other values pass through. The environment enters as a
lookup function. -/
def resolveApiKey (env : String → Option String) (raw : String) : String :=
  if raw.startsWith ("$\x7b") && raw.endsWith ("\x7d") then
    (env ((raw.drop 2).dropRight 1)).getD ("")
  else raw

/-- config.py lines 84-93 as one step: an api_key field resolved when
present, the given fallback when absent. -/
def overlayKey (env : String → Option String) (entryKey : Option String)
    (fallback : String) : String :=
  match entryKey with
  | some raw => resolveApiKey env raw
  | none => fallback

/-- The `_models` mapping of the ConfigManager. -/
abbrev ConfigState := String → Option ModelConfig

/-- config.py lines 73-81: the override target of a model id — when the id
contains ':' and the mapping already holds the suffix after the first ':',
that original id and its configuration. -/
def overrideTarget (st : ConfigState) (model_id : String) :
    Option (String × ModelConfig) :=
  (afterColon model_id).bind
    (fun original_id => (st original_id).map (fun cfg => (original_id, cfg)))

/-- config.py lines 69-111: process one (model_id, table) pair into the
mapping. An id containing ':' whose suffix after the first ':' names an
already-loaded model overrides that model field by field (stored back under
the original id); a plain entry requires endpoint/model_name/logical_name
(a KeyError otherwise, modelled as error). -/
def loadEntry (env : String → Option String) (st : ConfigState)
    (model_id : String) (entry : TomlEntry) : Except String ConfigState :=
  let existing : Option (String × ModelConfig) := overrideTarget st model_id
  let api_key : String :=
    overlayKey env entry.api_key
      (match existing with
       | some kc => kc.2.api_key
       | none => "")
  match existing with
  | some kc =>
    .ok (fun x => if x = kc.1 then
          some { endpoint := entry.endpoint.getD kc.2.endpoint
                 model_name := entry.model_name.getD kc.2.model_name
                 api_key := api_key
                 logical_name := entry.logical_name.getD kc.2.logical_name }
         else st x)
  | none =>
    match entry.endpoint, entry.model_name, entry.logical_name with
    | some ep, some mn, some ln =>
      .ok (fun x => if x = model_id then
            some { endpoint := ep, model_name := mn, api_key := api_key, logical_name := ln }
           else st x)
    | _, _, _ => .error ("KeyError")

/-- config.py lines 69-111, the loop over a TOML file's tables in order. -/
def loadEntries (env : String → Option String) :
    List (String × TomlEntry) → ConfigState → Except String ConfigState
  | [], st => .ok st
  | (k, e) :: rest, st =>
    match loadEntry env st k e with
    | .ok st' => loadEntries env rest st'
    | .error m => .error m

/-- The head of `s`, if any, fails `p` (the boundary condition under which
token scans stop exactly at a serialized value's end). -/
def headNot (p : Char → Bool) : Str → Prop
  | [] => True
  | c :: _ => p c = false

/-- What the text following a serialized value must avoid so that parsing
stops at the value's boundary: only numbers scan greedily. -/
def numSafe : Json → Str → Prop
  | .num _, rest => headNot Char.isDigit rest
  | _, _ => True

/-- A character that opens surrounding prose: it is not whitespace and
starts none of the JSON token alternatives, so a parse of the whole text
fails immediately. -/
def proseHead (c : Char) : Prop :=
  jsonWsChar c = false ∧ c ≠ 'n' ∧ c ≠ 't' ∧ c ≠ 'f' ∧ c ≠ '"' ∧
    c ≠ '[' ∧ c ≠ '\x7b' ∧ c ≠ '-' ∧ c.isDigit = false

/-- A sample object for concrete extraction runs. -/
def wObj : JsonObj := JsonObj.cons ('a' :: []) (Json.num 7) .nil

/-- An object whose string values contain fenced-code markers; its fenced
serialization defeats the code-block scan. -/
def wCex : JsonObj :=
  JsonObj.cons ('a' :: []) (Json.str ("```".toList))
    (JsonObj.cons ('b' :: []) (Json.str ("``` 7 ```".toList)) .nil)

/-! ## Concrete fixtures used by witness theorems -/

/-- A judge that accepts every pair, for witness runs. -/
def wJudge : Judge := fun _ _ => (true, "ok")

def wGt : EditOperation :=
  { type := "insertion", original_text := "", corrected_text := "test", line_number := some 10 }

def wPred : EditOperation :=
  { type := "insertion", original_text := "", corrected_text := "test", line_number := some 11 }

/-- A ground-truth edit with no line number whose type matches `wPred`:
Python raises TypeError on it instead of recording a false negative. -/
def wGtNoLine : EditOperation :=
  { type := "insertion", original_text := "", corrected_text := "test", line_number := none }

/-- The one detail record `evaluateDetails wJudge [wGt] [wPred]` produces. -/
def wDetail : EditMatch :=
  { observed_edit_num := some 0
    expected_edit_num := some 0
    tp := 9 / 10
    fp := 1 / 20
    fn := 1 / 20
    type := some .insertion
    original_text := some ""
    corrected_text := some "test"
    observed_line_number := some 11
    line_diff := some 1
    line_number_penalty := 1 / 10
    judgement := some "ok" }

/-- A prediction whose type matches `wGt`'s case-insensitively but not
exactly. -/
def wPredX : EditOperation :=
  { type := "Insertion", original_text := "", corrected_text := "test", line_number := some 10 }

/-! ## Theorems: matching (C1) -/

theorem scanPool_eq_find (gt : EditOperation) (pool : List EditOperation) :
    scanPool gt pool =
      match pool.find? (editsMatch gt) with
      | none => none
      | some p => some (p, pool.erase p) := by
  induction pool with
  | nil => rfl
  | cons q rest ih =>
    by_cases h : editsMatch gt q
    · simp [scanPool, h, List.find?_cons_of_pos, List.erase_cons_head]
    · have hq : (editsMatch gt q) = false := by simpa using h
      rw [scanPool, if_neg (by simp [hq]), ih, List.find?_cons_of_neg _ (by simp [hq])]
      cases hf : rest.find? (editsMatch gt) with
      | none => simp
      | some p =>
        have hp : editsMatch gt p = true := List.find?_some hf
        have : (q == p) = false := by
          simp only [beq_eq_false_iff_ne, ne_eq]
          intro e; rw [e] at hq; rw [hq] at hp; exact Bool.false_ne_true hp
        simp [List.erase_cons, this]

theorem matchLoop_eq_spec : ∀ gts pool,
    matchLoop gts pool = specFirstFitLoop gts pool := by
  intro gts
  induction gts with
  | nil => intro pool; rfl
  | cons g gs ih =>
    intro pool
    rw [matchLoop, specFirstFitLoop, scanPool_eq_find]
    cases hf : pool.find? (editsMatch g) with
    | none => simp only [ih]
    | some p => simp only [ih]

theorem scanPool_mem {gt q : EditOperation} {pool pool' : List EditOperation}
    (h : scanPool gt pool = some (q, pool')) :
    q ∈ pool ∧ ∀ x ∈ pool', x ∈ pool := by
  induction pool generalizing pool' with
  | nil => simp [scanPool] at h
  | cons r rest ih =>
    rw [scanPool] at h
    by_cases hr : editsMatch gt r
    · rw [if_pos hr] at h
      obtain ⟨h1, h2⟩ : r = q ∧ rest = pool' := by simpa using h
      refine ⟨h1 ▸ List.mem_cons_self r rest, ?_⟩
      intro x hx
      exact List.mem_cons_of_mem r (h2 ▸ hx)
    · rw [if_neg hr] at h
      cases hs : scanPool gt rest with
      | none => rw [hs] at h; exact absurd h (by simp)
      | some qr =>
        obtain ⟨q', rest'⟩ := qr
        rw [hs] at h
        obtain ⟨h1, h2⟩ : q' = q ∧ r :: rest' = pool' := by simpa using h
        obtain ⟨m1, m2⟩ := @ih rest' (by rw [hs, h1])
        refine ⟨List.mem_cons_of_mem r m1, ?_⟩
        intro x hx
        rw [← h2] at hx
        rcases List.mem_cons.mp hx with e | hx'
        · exact e ▸ List.mem_cons_self r rest
        · exact List.mem_cons_of_mem r (m2 x hx')

theorem matchLoop_preds_prop (P : EditOperation → Prop) : ∀ gts pool,
    (∀ p ∈ pool, P p) →
    (∀ pr ∈ (matchLoop gts pool).1, P pr.2) ∧ (∀ p ∈ (matchLoop gts pool).2.1, P p) := by
  intro gts
  induction gts with
  | nil =>
    intro pool hpool
    exact ⟨by simp [matchLoop], by simpa [matchLoop] using hpool⟩
  | cons g gs ih =>
    intro pool hpool
    rw [matchLoop]
    cases hs : scanPool g pool with
    | none => simpa using ih pool hpool
    | some qr =>
      obtain ⟨mq, msub⟩ := scanPool_mem hs
      have ihr := ih qr.2 (fun x hx => hpool x (msub x hx))
      constructor
      · intro pr hpr
        rcases List.mem_cons.mp hpr with e | hpr'
        · rw [e]; exact hpool qr.1 mq
        · exact ihr.1 pr hpr'
      · exact ihr.2

theorem matchLoop_fns_sub : ∀ gts pool, ∀ g ∈ (matchLoop gts pool).2.2, g ∈ gts := by
  intro gts
  induction gts with
  | nil => intro pool g hg; simp [matchLoop] at hg
  | cons g0 gs ih =>
    intro pool g hg
    rw [matchLoop] at hg
    cases hs : scanPool g0 pool with
    | none =>
      rw [hs] at hg
      simp only at hg
      rcases List.mem_cons.mp hg with e | hg'
      · exact e ▸ List.mem_cons_self g0 gs
      · exact List.mem_cons_of_mem g0 (ih pool g hg')
    | some qr =>
      rw [hs] at hg
      exact List.mem_cons_of_mem g0 (ih qr.2 g hg)

/-- Claim C1: match_edits first discards every predicted edit lacking a line
number (no such edit reaches the candidate pairs or the false positives, and
the false negatives hold only ground-truth edits), and then runs exactly the
first-fit scan the spec describes: for each ground-truth edit in list order
it accepts the first unconsumed prediction with a case-insensitively equal
type, an absolute line difference of at most 3, and one of the four substring
overlaps, removing it from the pool; unmatched ground truth becomes the false
negatives and never-consumed predictions the false positives. -/
theorem editsMatchE_eq (gt pred : EditOperation)
    (hg : gt.line_number.isSome = true) (hp : pred.line_number.isSome = true) :
    editsMatchE gt pred = .ok (editsMatch gt pred) := by
  obtain ⟨g, hgl⟩ := Option.isSome_iff_exists.mp hg
  obtain ⟨p, hpl⟩ := Option.isSome_iff_exists.mp hp
  cases ht : (lowerStr gt.type == lowerStr pred.type) with
  | false =>
    rw [editsMatchE, if_neg (by simp [ht]), editsMatch, ht]
    simp
  | true =>
    rw [editsMatchE, if_pos (by simp [ht]), hgl, hpl, editsMatch, ht, hgl, hpl]
    simp

theorem scanPoolE_eq (gt : EditOperation) (hg : gt.line_number.isSome = true) :
    ∀ pool : List EditOperation, (∀ p ∈ pool, p.line_number.isSome = true) →
    scanPoolE gt pool = .ok (scanPool gt pool) := by
  intro pool
  induction pool with
  | nil => intro _; rfl
  | cons p rest ih =>
    intro hpool
    rw [scanPoolE, editsMatchE_eq gt p hg (hpool p (List.mem_cons_self p rest)),
      scanPool]
    cases hm : editsMatch gt p with
    | true => rw [if_pos rfl]
    | false =>
      rw [if_neg (by simp), ih (fun q hq => hpool q (List.mem_cons_of_mem p hq))]
      cases scanPool gt rest with
      | none => rfl
      | some qr => cases qr with | mk q rest' => rfl

theorem matchLoopE_eq : ∀ (gts pool : List EditOperation),
    (∀ g ∈ gts, g.line_number.isSome = true) →
    (∀ p ∈ pool, p.line_number.isSome = true) →
    matchLoopE gts pool = .ok (matchLoop gts pool) := by
  intro gts
  induction gts with
  | nil => intro pool _ _; rfl
  | cons g gs ih =>
    intro pool hg hpool
    rw [matchLoopE, scanPoolE_eq g (hg g (List.mem_cons_self g gs)) pool hpool,
      matchLoop]
    cases hs : scanPool g pool with
    | none =>
      rw [ih pool (fun x hx => hg x (List.mem_cons_of_mem g hx)) hpool]
    | some pq =>
      obtain ⟨q, pool'⟩ := pq
      have hmem := scanPool_mem hs
      simp only []
      rw [ih pool' (fun x hx => hg x (List.mem_cons_of_mem g hx))
        (fun x hx => hpool x (hmem.2 x hx))]

theorem match_edits_run_eq (gts preds : List EditOperation)
    (hg : ∀ g ∈ gts, g.line_number.isSome = true) :
    match_edits_run gts preds = .ok (match_edits gts preds) :=
  matchLoopE_eq gts _ hg (fun p hp => (List.mem_filter.mp hp).2)

/-- C1 (amended): provided every ground-truth edit carries a line number,
the run of match_edits completes without raising and equals the spec's
first-fit algorithm: predictions without line numbers are discarded up
front and appear in no bucket, each ground-truth edit takes the first
unconsumed prediction passing the candidate test, unmatched ground truths
become false negatives, and never-consumed predictions become false
positives. Without that proviso the claim fails: a ground-truth edit with
no line number whose type matches an unconsumed prediction
case-insensitively makes the comparison raise TypeError instead of filing
the edit as a false negative (`match_edits_run_counterexample`). -/
theorem match_edits_matches_spec (gts preds : List EditOperation)
    (hg : ∀ g ∈ gts, g.line_number.isSome = true) :
    match_edits_run gts preds = .ok (matchEditsSpec gts preds)
    ∧ match_edits gts preds = matchEditsSpec gts preds
    ∧ (∀ pr ∈ (match_edits gts preds).1, pr.2.line_number.isSome = true)
    ∧ (∀ p ∈ (match_edits gts preds).2.1, p.line_number.isSome = true)
    ∧ (∀ g ∈ (match_edits gts preds).2.2, g ∈ gts) := by
  have hspec : match_edits gts preds = matchEditsSpec gts preds :=
    matchLoop_eq_spec gts _
  refine ⟨?_, hspec, ?_, ?_, ?_⟩
  · rw [match_edits_run_eq gts preds hg]
    exact congrArg _ hspec
  · intro pr hpr
    exact (matchLoop_preds_prop (fun p => p.line_number.isSome = true) gts
      (preds.filter (fun e => e.line_number.isSome))
      (fun p hp => (List.mem_filter.mp hp).2)).1 pr hpr
  · intro p hp
    exact (matchLoop_preds_prop (fun p => p.line_number.isSome = true) gts
      (preds.filter (fun e => e.line_number.isSome))
      (fun p hp => (List.mem_filter.mp hp).2)).2 p hp
  · exact matchLoop_fns_sub gts _

/-- Concrete run of the matcher: one insertion pair a line apart, matched
first-fit with no raising path. -/
theorem match_edits_matches_spec_witness :
    match_edits_run [wGt] [wPred] = .ok (matchEditsSpec [wGt] [wPred])
    ∧ match_edits [wGt] [wPred] = matchEditsSpec [wGt] [wPred] :=
  ⟨(match_edits_matches_spec [wGt] [wPred]
      (by intro g hgm; rcases List.mem_singleton.mp hgm with rfl; rfl)).1,
   (match_edits_matches_spec [wGt] [wPred]
      (by intro g hgm; rcases List.mem_singleton.mp hgm with rfl; rfl)).2.1⟩

/-- The unamended claim fails: on a ground-truth edit with no line number
whose type matches the unconsumed prediction, the program raises TypeError
at the line-number subtraction and returns nothing, while the claimed
bookkeeping (second conjunct, the non-raising idealization) would have
filed the edit as a false negative. -/
theorem match_edits_run_counterexample :
    match_edits_run [wGtNoLine] [wPred] =
      .error ("TypeError: unsupported operand type(s) for -: 'NoneType' and 'int'")
    ∧ (match_edits [wGtNoLine] [wPred]).2.2 = [wGtNoLine] :=
  ⟨rfl, rfl⟩

/-! ## Theorems: line penalty (C2) -/

theorem get_penalty_cap {gt pred : Int} (h : 4 ≤ (gt - pred).natAbs) :
    get_penalty gt pred = 1 := by
  have h16 : (16 : ℚ) ≤ (((gt - pred).natAbs ^ 2 : ℕ) : ℚ) := by
    have h2 : (16 : ℕ) ≤ (gt - pred).natAbs ^ 2 := by nlinarith
    exact_mod_cast h2
  rw [get_penalty]
  exact min_eq_left (by linarith)

/-- Claim C2: the line-number penalty is min(1, d²/10): exactly 0 at distance
0, 1/10 at 1, 4/10 at 2, 9/10 at 3, and capped at 1 for every distance of 4
or more. -/
theorem get_penalty_values (gt pred : Int) :
    ((gt - pred).natAbs = 0 → get_penalty gt pred = 0)
    ∧ ((gt - pred).natAbs = 1 → get_penalty gt pred = 1 / 10)
    ∧ ((gt - pred).natAbs = 2 → get_penalty gt pred = 4 / 10)
    ∧ ((gt - pred).natAbs = 3 → get_penalty gt pred = 9 / 10)
    ∧ (4 ≤ (gt - pred).natAbs → get_penalty gt pred = 1) := by
  refine ⟨?_, ?_, ?_, ?_, ?_⟩
  · intro h; rw [get_penalty, h]; norm_num
  · intro h; rw [get_penalty, h]; norm_num
  · intro h; rw [get_penalty, h]; norm_num
  · intro h; rw [get_penalty, h]; norm_num
  · exact fun h => get_penalty_cap h

/-! ## Theorems: the first pass of evaluate (C3) -/

theorem firstPass_counts_one (judge : Judge) :
    ∀ (l : List MatchedPair) (counts : Nat → Nat) (fps fns : List EditOperation),
    (∀ p ∈ l, counts p.gtId = 1) → (l.map MatchedPair.gtId).Nodup →
    firstPass judge l counts fps fns =
      (l.filter (survives judge),
       fps ++ (l.filter (fun p => !survives judge p)).map MatchedPair.pred,
       fns ++ (l.filter (fun p => !survives judge p)).map MatchedPair.gt) := by
  intro l
  induction l with
  | nil => intro counts fps fns _ _; simp [firstPass]
  | cons p rest ih =>
    intro counts fps fns hone hnd
    rw [List.map_cons] at hnd
    obtain ⟨hp, hndr⟩ := List.nodup_cons.mp hnd
    by_cases hs : survives judge p
    · rw [firstPass, if_pos hs,
        ih counts fps fns (fun q hq => hone q (List.mem_cons_of_mem p hq)) hndr]
      simp [List.filter_cons, hs]
    · have hc : counts p.gtId = 1 := hone p (List.mem_cons_self p rest)
      have hrest : ∀ q ∈ rest,
          (fun g => if g = p.gtId then counts g - 1 else counts g) q.gtId = 1 := by
        intro q hq
        have hne : q.gtId ≠ p.gtId := by
          intro e
          exact hp (e ▸ List.mem_map_of_mem MatchedPair.gtId hq)
        simp only [if_neg hne]
        exact hone q (List.mem_cons_of_mem p hq)
      rw [firstPass, if_neg hs, hc]
      rw [ih (fun g => if g = p.gtId then counts g - 1 else counts g)
        (fps ++ [p.pred]) (if 1 - 1 = 0 then fns ++ [p.gt] else fns) hrest hndr]
      simp [List.filter_cons, hs]

theorem pairsOf_gtId_nodup (tps : List (EditOperation × EditOperation)) :
    ((pairsOf tps).map MatchedPair.gtId).Nodup := by
  have h : (pairsOf tps).map MatchedPair.gtId = tps.enum.map Prod.fst := by
    rw [pairsOf, List.map_map]
    rfl
  rw [h]
  exact List.nodup_enum_map_fst tps

theorem pairsOf_counts_one (tps : List (EditOperation × EditOperation)) :
    ∀ p ∈ pairsOf tps, countMap (pairsOf tps) p.gtId = 1 := by
  intro p hp
  have hmem : p.gtId ∈ (pairsOf tps).map MatchedPair.gtId :=
    List.mem_map_of_mem MatchedPair.gtId hp
  have hcount : ((pairsOf tps).map MatchedPair.gtId).count p.gtId = 1 :=
    List.count_eq_one_of_mem (pairsOf_gtId_nodup tps) hmem
  rw [countMap, ← hcount, List.count, List.countP_map]
  rfl

theorem pairsOf_gtId_inj {tps : List (EditOperation × EditOperation)}
    {q r : MatchedPair} (hq : q ∈ pairsOf tps) (hr : r ∈ pairsOf tps)
    (h : q.gtId = r.gtId) : q = r :=
  List.inj_on_of_nodup_map (pairsOf_gtId_nodup tps) hq hr h

/-- Claim C3: in the scoring pipeline a candidate matched pair survives as a
true positive iff the judge reports the content correct and the line penalty
is strictly below 1; a failing pair is dissolved, its prediction appended to
the false positives and its ground-truth edit added to the false negatives
unless that ground-truth edit still participates in another surviving pair
(so a content-correct pair at full line penalty — line difference 4 or more —
yields one false positive and one false negative instead of a true
positive). -/
theorem evaluate_first_pass_dissolves (judge : Judge) (gts preds : List EditOperation) :
    (∀ p : MatchedPair,
      survives judge p = true ↔ ((judge p.gt p.pred).1 = true ∧ pairPenalty p < 1))
    ∧ (pipelineFirstPass judge gts preds).1
        = (pipelinePairs gts preds).filter (survives judge)
    ∧ (pipelineFirstPass judge gts preds).2.1
        = (match_edits gts preds).2.1
          ++ ((pipelinePairs gts preds).filter
                (fun p => !survives judge p)).map MatchedPair.pred
    ∧ (∀ x, x ∈ (pipelineFirstPass judge gts preds).2.2 ↔
         x ∈ (match_edits gts preds).2.2
         ∨ ∃ p ∈ pipelinePairs gts preds, survives judge p = false ∧ x = p.gt
             ∧ ∀ q ∈ pipelinePairs gts preds, q.gtId = p.gtId →
                 survives judge q = false)
    ∧ (∀ p ∈ pipelinePairs gts preds,
         (judge p.gt p.pred).1 = true → 4 ≤ pairLineDiff p →
           p ∉ (pipelineFirstPass judge gts preds).1
           ∧ p.pred ∈ (pipelineFirstPass judge gts preds).2.1
           ∧ p.gt ∈ (pipelineFirstPass judge gts preds).2.2) := by
  have hrw : pipelineFirstPass judge gts preds =
      ((pipelinePairs gts preds).filter (survives judge),
       (match_edits gts preds).2.1
         ++ ((pipelinePairs gts preds).filter
               (fun p => !survives judge p)).map MatchedPair.pred,
       (match_edits gts preds).2.2
         ++ ((pipelinePairs gts preds).filter
               (fun p => !survives judge p)).map MatchedPair.gt) := by
    rw [pipelineFirstPass]
    exact firstPass_counts_one judge _ _ _ _
      (pairsOf_counts_one (match_edits gts preds).1)
      (pairsOf_gtId_nodup (match_edits gts preds).1)
  have hfail : ∀ p : MatchedPair, (!survives judge p) = true ↔ survives judge p = false := by
    intro p; cases h : survives judge p <;> simp [h]
  refine ⟨?_, by rw [hrw], by rw [hrw], ?_, ?_⟩
  · intro p
    rw [survives]
    constructor
    · intro h
      obtain ⟨h1, h2⟩ := Bool.and_eq_true .. ▸ h
      exact ⟨h1, by simpa [not_le] using h2⟩
    · intro ⟨h1, h2⟩
      simp [h1, not_le.mpr h2]
  · intro x
    rw [hrw]
    simp only [List.mem_append, List.mem_map, List.mem_filter]
    constructor
    · rintro (hx | ⟨p, ⟨hpm, hpf⟩, hgt⟩)
      · exact Or.inl hx
      · refine Or.inr ⟨p, hpm, (hfail p).mp hpf, hgt.symm, ?_⟩
        intro q hq he
        rw [pairsOf_gtId_inj hq hpm he]
        exact (hfail p).mp hpf
    · rintro (hx | ⟨p, hpm, hpf, hgt, _⟩)
      · exact Or.inl hx
      · exact Or.inr ⟨p, ⟨hpm, (hfail p).mpr hpf⟩, hgt.symm⟩
  · intro p hpm hj hd
    have hpen : pairPenalty p = 1 := by
      rw [pairPenalty]
      exact get_penalty_cap (by simpa [pairLineDiff] using hd)
    have hsf : survives judge p = false := by
      simp [survives, hpen]
    rw [hrw]
    refine ⟨?_, ?_, ?_⟩
    · intro hmem
      have hmem2 := (List.mem_filter.mp hmem).2
      rw [hsf] at hmem2
      exact Bool.false_ne_true hmem2
    · exact List.mem_append_right _ (List.mem_map_of_mem MatchedPair.pred
        (List.mem_filter.mpr ⟨hpm, by simp [hsf]⟩))
    · exact List.mem_append_right _ (List.mem_map_of_mem MatchedPair.gt
        (List.mem_filter.mpr ⟨hpm, by simp [hsf]⟩))

/-! ## Theorems: score components (C4) -/

/-- The score-component shape of one detail record: the invariant plus which
of the three score patterns it carries. -/
def scoreShape (m : EditMatch) : Prop :=
  m.tp + m.fp + m.fn = 1
  ∧ ((m.tp = max 0 (1 - m.line_number_penalty) ∧ m.fp = (1 - m.tp) / 2 ∧ m.fn = (1 - m.tp) / 2)
     ∨ (m.tp = 0 ∧ m.fp = 1 ∧ m.fn = 0)
     ∨ (m.tp = 0 ∧ m.fp = 0 ∧ m.fn = 1))

theorem tpEditMatch_shape {judge : Judge} {idx : Nat} {p : MatchedPair} {m : EditMatch}
    (h : tpEditMatch judge idx p = some m) : scoreShape m := by
  rw [tpEditMatch, Option.map_eq_some'] at h
  obtain ⟨t, _, hm⟩ := h
  subst hm
  have e1 : (max 0 (1 - pairPenalty p) : ℚ) + (1 - max 0 (1 - pairPenalty p)) / 2
      + (1 - max 0 (1 - pairPenalty p)) / 2 = 1 := by ring
  exact ⟨e1, Or.inl ⟨rfl, rfl, rfl⟩⟩

theorem fpEditMatch_shape {base i : Nat} {e : EditOperation} {m : EditMatch}
    (h : fpEditMatch base i e = some m) : scoreShape m := by
  rw [fpEditMatch, Option.map_eq_some'] at h
  obtain ⟨t, _, hm⟩ := h
  subst hm
  exact ⟨by norm_num, Or.inr (Or.inl ⟨rfl, rfl, rfl⟩)⟩

theorem fnEditMatch_shape {base i : Nat} {e : EditOperation} {m : EditMatch}
    (h : fnEditMatch base i e = some m) : scoreShape m := by
  rw [fnEditMatch, Option.map_eq_some'] at h
  obtain ⟨t, _, hm⟩ := h
  subst hm
  exact ⟨by norm_num, Or.inr (Or.inr ⟨rfl, rfl, rfl⟩)⟩

theorem buildTpMatches_shape {judge : Judge} :
    ∀ {l : List MatchedPair} {idx : Nat} {ms : List EditMatch},
    buildTpMatches judge idx l = some ms → ∀ m ∈ ms, scoreShape m := by
  intro l
  induction l with
  | nil =>
    intro idx ms h m hm
    rw [buildTpMatches] at h
    obtain rfl : [] = ms := by simpa using h
    simp at hm
  | cons p rest ih =>
    intro idx ms h m hm
    rw [buildTpMatches] at h
    cases h1 : tpEditMatch judge idx p with
    | none => rw [h1] at h; simp at h
    | some m0 =>
      rw [h1] at h
      cases h2 : buildTpMatches judge (idx + 1) rest with
      | none => rw [h2] at h; simp at h
      | some ms0 =>
        rw [h2] at h
        obtain rfl : m0 :: ms0 = ms := by simpa using h
        rcases List.mem_cons.mp hm with e | hm'
        · exact e ▸ tpEditMatch_shape h1
        · exact ih h2 m hm'

theorem buildFpMatches_shape {base : Nat} :
    ∀ {l : List EditOperation} {i : Nat} {ms : List EditMatch},
    buildFpMatches base i l = some ms → ∀ m ∈ ms, scoreShape m := by
  intro l
  induction l with
  | nil =>
    intro i ms h m hm
    rw [buildFpMatches] at h
    obtain rfl : [] = ms := by simpa using h
    simp at hm
  | cons e rest ih =>
    intro i ms h m hm
    rw [buildFpMatches] at h
    cases h1 : fpEditMatch base i e with
    | none => rw [h1] at h; simp at h
    | some m0 =>
      rw [h1] at h
      cases h2 : buildFpMatches base (i + 1) rest with
      | none => rw [h2] at h; simp at h
      | some ms0 =>
        rw [h2] at h
        obtain rfl : m0 :: ms0 = ms := by simpa using h
        rcases List.mem_cons.mp hm with e' | hm'
        · exact e' ▸ fpEditMatch_shape h1
        · exact ih h2 m hm'

theorem buildFnMatches_shape {base : Nat} :
    ∀ {l : List EditOperation} {i : Nat} {ms : List EditMatch},
    buildFnMatches base i l = some ms → ∀ m ∈ ms, scoreShape m := by
  intro l
  induction l with
  | nil =>
    intro i ms h m hm
    rw [buildFnMatches] at h
    obtain rfl : [] = ms := by simpa using h
    simp at hm
  | cons e rest ih =>
    intro i ms h m hm
    rw [buildFnMatches] at h
    cases h1 : fnEditMatch base i e with
    | none => rw [h1] at h; simp at h
    | some m0 =>
      rw [h1] at h
      cases h2 : buildFnMatches base (i + 1) rest with
      | none => rw [h2] at h; simp at h
      | some ms0 =>
        rw [h2] at h
        obtain rfl : m0 :: ms0 = ms := by simpa using h
        rcases List.mem_cons.mp hm with e' | hm'
        · exact e' ▸ fnEditMatch_shape h1
        · exact ih h2 m hm'

/-- Claim C4: every EditMatch produced by evaluate satisfies
tp + fp + fn = 1 exactly, and carries one of the three score patterns: a
surviving true positive has tp = max(0, 1 − linePenalty) with
fp = fn = (1 − tp)/2, a pure false positive has (0, 1, 0), and a pure false
negative has (0, 0, 1). -/
theorem evaluate_details_sum_one (judge : Judge) (gts preds : List EditOperation)
    (details : List EditMatch) (h : evaluateDetails judge gts preds = some details) :
    ∀ m ∈ details, scoreShape m := by
  intro m hm
  rw [evaluateDetails] at h
  cases h1 : buildTpMatches judge 0 (pipelineFirstPass judge gts preds).1 with
  | none => rw [h1] at h; simp at h
  | some tpms =>
    rw [h1] at h
    cases h2 : buildFpMatches (pipelineFirstPass judge gts preds).1.length 0
        (pipelineFirstPass judge gts preds).2.1 with
    | none => rw [h2] at h; simp at h
    | some fpms =>
      rw [h2] at h
      cases h3 : buildFnMatches (pipelineFirstPass judge gts preds).1.length 0
          (pipelineFirstPass judge gts preds).2.2 with
      | none => rw [h3] at h; simp at h
      | some fnms =>
        rw [h3] at h
        obtain rfl : tpms ++ fpms ++ fnms = details := by simpa using h
        rcases List.mem_append.mp hm with hm' | hm3
        · rcases List.mem_append.mp hm' with hm1 | hm2
          · exact buildTpMatches_shape h1 m hm1
          · exact buildFpMatches_shape h2 m hm2
        · exact buildFnMatches_shape h3 m hm3

theorem evaluate_details_sum_one_witness : scoreShape wDetail :=
  evaluate_details_sum_one wJudge [wGt] [wPred] [wDetail]
    (by with_unfolding_all decide) wDetail (List.mem_singleton.mpr rfl)

/-! ## Theorems: the EditType precondition of evaluate (C10) -/

theorem buildTpMatches_types {judge : Judge} :
    ∀ {l : List MatchedPair} {idx : Nat} {ms : List EditMatch},
    buildTpMatches judge idx l = some ms →
    ∀ p ∈ l, (EditType.fromString p.pred.type).isSome = true := by
  intro l
  induction l with
  | nil => intro idx ms _ p hp; simp at hp
  | cons p0 rest ih =>
    intro idx ms h p hp
    rw [buildTpMatches] at h
    cases h1 : tpEditMatch judge idx p0 with
    | none => rw [h1] at h; simp at h
    | some m0 =>
      rw [h1] at h
      cases h2 : buildTpMatches judge (idx + 1) rest with
      | none => rw [h2] at h; simp at h
      | some ms0 =>
        rcases List.mem_cons.mp hp with e | hp'
        · subst e
          rw [tpEditMatch, Option.map_eq_some'] at h1
          obtain ⟨t, ht, _⟩ := h1
          rw [ht]; rfl
        · exact ih h2 p hp'

theorem buildFpMatches_types {base : Nat} :
    ∀ {l : List EditOperation} {i : Nat} {ms : List EditMatch},
    buildFpMatches base i l = some ms →
    ∀ e ∈ l, (EditType.fromString e.type).isSome = true := by
  intro l
  induction l with
  | nil => intro i ms _ e he; simp at he
  | cons e0 rest ih =>
    intro i ms h e he
    rw [buildFpMatches] at h
    cases h1 : fpEditMatch base i e0 with
    | none => rw [h1] at h; simp at h
    | some m0 =>
      rw [h1] at h
      cases h2 : buildFpMatches base (i + 1) rest with
      | none => rw [h2] at h; simp at h
      | some ms0 =>
        rcases List.mem_cons.mp he with e' | he'
        · subst e'
          rw [fpEditMatch, Option.map_eq_some'] at h1
          obtain ⟨t, ht, _⟩ := h1
          rw [ht]; rfl
        · exact ih h2 e he'

theorem buildFnMatches_types {base : Nat} :
    ∀ {l : List EditOperation} {i : Nat} {ms : List EditMatch},
    buildFnMatches base i l = some ms →
    ∀ e ∈ l, (EditType.fromString e.type).isSome = true := by
  intro l
  induction l with
  | nil => intro i ms _ e he; simp at he
  | cons e0 rest ih =>
    intro i ms h e he
    rw [buildFnMatches] at h
    cases h1 : fnEditMatch base i e0 with
    | none => rw [h1] at h; simp at h
    | some m0 =>
      rw [h1] at h
      cases h2 : buildFnMatches base (i + 1) rest with
      | none => rw [h2] at h; simp at h
      | some ms0 =>
        rcases List.mem_cons.mp he with e' | he'
        · subst e'
          rw [fnEditMatch, Option.map_eq_some'] at h1
          obtain ⟨t, ht, _⟩ := h1
          rw [ht]; rfl
        · exact ih h2 e he'

/-- Claim C10: evaluate completes only when every type string it converts
through the closed EditType enumeration — the predicted type of every
surviving matched pair, and the type of every false positive and every false
negative — is one of the seven lowercase literals; and there are inputs
match_edits accepts as a valid match (a predicted type equal to the ground
truth's case-insensitively but not exactly, here "Insertion") on which
evaluate then raises while constructing the EditMatch records. -/
theorem evaluate_edit_type_precondition (judge : Judge) (gts preds : List EditOperation) :
    (∀ details, evaluateDetails judge gts preds = some details →
       (∀ p ∈ (pipelineFirstPass judge gts preds).1,
          (EditType.fromString p.pred.type).isSome = true)
       ∧ (∀ e ∈ (pipelineFirstPass judge gts preds).2.1,
            (EditType.fromString e.type).isSome = true)
       ∧ (∀ e ∈ (pipelineFirstPass judge gts preds).2.2,
            (EditType.fromString e.type).isSome = true))
    ∧ ((match_edits [wGt] [wPredX]).1 = [(wGt, wPredX)]
       ∧ wPredX.type ≠ wGt.type
       ∧ lowerStr wPredX.type = lowerStr wGt.type
       ∧ evaluateDetails wJudge [wGt] [wPredX] = none) := by
  constructor
  · intro details h
    rw [evaluateDetails] at h
    cases h1 : buildTpMatches judge 0 (pipelineFirstPass judge gts preds).1 with
    | none => rw [h1] at h; simp at h
    | some tpms =>
      rw [h1] at h
      cases h2 : buildFpMatches (pipelineFirstPass judge gts preds).1.length 0
          (pipelineFirstPass judge gts preds).2.1 with
      | none => rw [h2] at h; simp at h
      | some fpms =>
        rw [h2] at h
        cases h3 : buildFnMatches (pipelineFirstPass judge gts preds).1.length 0
            (pipelineFirstPass judge gts preds).2.2 with
        | none => rw [h3] at h; simp at h
        | some fnms =>
          exact ⟨buildTpMatches_types h1, buildFpMatches_types h2, buildFnMatches_types h3⟩
  · refine ⟨by with_unfolding_all decide, by decide, by decide, by with_unfolding_all decide⟩

/-! ## Theorems: leaderboard update (C5) -/

theorem mem_replaceOrAppend (entry : LBEntry) (name : String) :
    ∀ l : List LBEntry, entry ∈ replaceOrAppend entry name l := by
  intro l
  induction l with
  | nil => simp [replaceOrAppend]
  | cons e rest ih =>
    rw [replaceOrAppend]
    by_cases h : (e.model_name == name) = true
    · rw [if_pos h]; exact List.mem_cons_self entry rest
    · rw [if_neg h]; exact List.mem_cons_of_mem e ih

/-- Claim C5 fails on the code: updating the leaderboard with any
EvaluationResult of the authoritative shape raises KeyError("f1_score")
inside the re-sort, before the store is written, because the serialized
result carries no top-level f1_score key. The entry is therefore neither
replaced nor appended durably, for every prior store content. -/
theorem update_leaderboard_keyerror (r : EvaluationResult) (lb : List LBEntry) :
    update_leaderboard r lb = .error ("KeyError: f1_score") := by
  rw [update_leaderboard, sortByF1]
  have hmem : dumpResult r ∈ replaceOrAppend (dumpResult r) r.model_name lb :=
    mem_replaceOrAppend (dumpResult r) r.model_name lb
  have hfalse :
      ¬ ((replaceOrAppend (dumpResult r) r.model_name lb).all
          (fun e => e.f1_score.isSome) = true) := by
    rw [List.all_eq_true]
    intro hforall
    have hd := hforall (dumpResult r) hmem
    simp [dumpResult] at hd
  rw [if_neg hfalse]

/-- Before the crash point, the replace-not-duplicate logic itself behaves as
the spec describes: a second result for an already-present model name
replaces that entry in place. -/
theorem replaceOrAppend_replaces (entry : LBEntry) (pre post : List LBEntry)
    (old : LBEntry) (hpre : ∀ e ∈ pre, (e.model_name == old.model_name) = false)
    (hold : old.model_name = entry.model_name) :
    replaceOrAppend entry entry.model_name (pre ++ old :: post)
      = pre ++ entry :: post := by
  induction pre with
  | nil =>
    rw [List.nil_append, replaceOrAppend, if_pos (by rw [hold]; exact beq_self_eq_true _),
      List.nil_append]
  | cons e rest ih =>
    rw [List.cons_append, replaceOrAppend,
      if_neg (by rw [← hold, hpre e (List.mem_cons_self e rest)]; exact Bool.false_ne_true),
      ih (fun x hx => hpre x (List.mem_cons_of_mem e hx)), List.cons_append]

/-! ## Theorems: the exemplar safety check (C7) -/

/-- Claim C7: load_examples fails with the critical-safety ValueError for
every dataset path containing "eval" case-insensitively, independently of
the dataset's content (the check precedes any read of data); and in
generate_predictions this error is never downgraded — for an existing sample
dataset path containing "eval" the run raises, while a merely missing sample
dataset only warns and falls back to zero-shot prompting. -/
theorem load_examples_safety (path : String) (h : containsEval path = true) :
    (∀ (α : Type) (dataset : List α) (n : Nat) (sample : List α → List α),
       load_examples path dataset n sample = .error criticalSafetyMsg)
    ∧ (∀ shots : Nat, 0 < shots →
         examplesDecision shots (some path) true = .safetyStop)
    ∧ (∀ shots : Nat, 0 < shots →
         examplesDecision shots (some path) false = .warnFallback) := by
  refine ⟨?_, ?_, ?_⟩
  · intro α dataset n sample
    rw [load_examples, if_pos h]
  · intro shots hs
    rw [examplesDecision, if_pos hs]
    simp [h]
  · intro shots hs
    rw [examplesDecision, if_pos hs]
    rfl

theorem load_examples_safety_witness :
    load_examples ("data/hf/EVAL-set/ld") ([] : List Nat) 3 id = .error criticalSafetyMsg
    ∧ examplesDecision 3 (some ("data/hf/EVAL-set/ld")) true = .safetyStop
    ∧ examplesDecision 3 (some ("data/hf/EVAL-set/ld")) false = .warnFallback := by
  have h := load_examples_safety ("data/hf/EVAL-set/ld") (by decide)
  exact ⟨h.1 Nat [] 3 id, h.2.1 3 (by decide), h.2.2 3 (by decide)⟩

/-! ## Theorems: configuration overlays (C9) -/

theorem afterColon_local (K : String) : afterColon ("local:" ++ K) = some K := by
  rw [afterColon]
  have h : ("local:" ++ K).toList = 'l' :: 'o' :: 'c' :: 'a' :: 'l' :: ':' :: K.toList :=
    String.data_append ("local:") K
  rw [h, restAfterColon, if_neg (by decide), restAfterColon, if_neg (by decide),
    restAfterColon, if_neg (by decide), restAfterColon, if_neg (by decide),
    restAfterColon, if_neg (by decide), restAfterColon, if_pos rfl]
  rfl

theorem loadEntry_fresh (env : String → Option String) (st : ConfigState)
    (mid ep mn ln : String) (bk : Option String)
    (hE : ∀ oid, afterColon mid = some oid → st oid = none) :
    loadEntry env st mid
      { endpoint := some ep, model_name := some mn, logical_name := some ln, api_key := bk }
      = .ok (fun x => if x = mid then
          some { endpoint := ep, model_name := mn
                 api_key := overlayKey env bk ("")
                 logical_name := ln }
        else st x) := by
  have hoT : overrideTarget st mid = none := by
    rw [overrideTarget]
    cases hA : afterColon mid with
    | none => rfl
    | some oid => simp [hE oid hA]
  rw [loadEntry, hoT]

theorem loadEntry_override (env : String → Option String) (st : ConfigState)
    (oid : String) (cfg : ModelConfig) (mid : String) (entry : TomlEntry)
    (hA : afterColon mid = some oid) (hst : st oid = some cfg) :
    loadEntry env st mid entry = .ok (fun x => if x = oid then
        some { endpoint := entry.endpoint.getD cfg.endpoint
               model_name := entry.model_name.getD cfg.model_name
               api_key := overlayKey env entry.api_key cfg.api_key
               logical_name := entry.logical_name.getD cfg.logical_name }
      else st x) := by
  have hoT : overrideTarget st mid = some (oid, cfg) := by
    simp [overrideTarget, hA, hst]
  rw [loadEntry, hoT]

/-- Claim C9: loading a base profile under key K and then an overlay entry
under key "local:K" leaves getModel(K) returning endpoint, model name and
logical name from the overlay when the overlay specifies them and from the
base otherwise, and the API key from the overlay (with environment-variable
resolution) when specified and from the base otherwise; in particular an
overlay specifying only api_key changes nothing else. -/
theorem config_overlay_precedence (env : String → Option String)
    (K ep mn ln : String) (bk : Option String) (ov : TomlEntry) :
    ∃ st : ConfigState,
      loadEntries env
        [(K, { endpoint := some ep, model_name := some mn,
               logical_name := some ln, api_key := bk }),
         ("local:" ++ K, ov)] (fun _ => none) = .ok st
      ∧ st K = some
          { endpoint := ov.endpoint.getD ep
            model_name := ov.model_name.getD mn
            api_key := overlayKey env ov.api_key (overlayKey env bk (""))
            logical_name := ov.logical_name.getD ln } := by
  have h1 := loadEntry_fresh env (fun _ => none) K ep mn ln bk (fun _ _ => rfl)
  have h2 := loadEntry_override env
    (fun x => if x = K then
        some { endpoint := ep, model_name := mn
               api_key := overlayKey env bk ("")
               logical_name := ln }
      else none)
    K _ ("local:" ++ K) ov (afterColon_local K) (if_pos rfl)
  refine ⟨(fun x => if x = K then
      some { endpoint := ov.endpoint.getD ep
             model_name := ov.model_name.getD mn
             api_key := overlayKey env ov.api_key (overlayKey env bk (""))
             logical_name := ov.logical_name.getD ln }
    else if x = K then
      some { endpoint := ep, model_name := mn
             api_key := overlayKey env bk ("")
             logical_name := ln }
    else none), ?_, ?_⟩
  · simp only [loadEntries, h1, h2]
  · have hif : ∀ (a b : Option ModelConfig), (if K = K then a else b) = a :=
      fun a b => if_pos rfl
    exact hif _ _

/-! ## Theorems: decimal digits and JSON strings (towards C6 and C8) -/

/-- The first character of `t`, if any, fails `p`. -/
theorem natDigitsF_foldr : ∀ f n, 0 < n → n ≤ f →
    (natDigitsF f n).foldr (fun d a => 10 * a + d) 0 = n := by
  intro f
  induction f with
  | zero => intro n h1 h2; omega
  | succ f ih =>
    intro n h1 h2
    obtain ⟨m, rfl⟩ : ∃ m, n = m + 1 := ⟨n - 1, by omega⟩
    rw [natDigitsF, List.foldr_cons]
    by_cases h0 : (m + 1) / 10 = 0
    · rw [h0]
      have : natDigitsF f 0 = [] := by cases f <;> rfl
      rw [this, List.foldr_nil]
      omega
    · rw [ih ((m + 1) / 10) (by omega) (by
        have := Nat.div_lt_self (show 0 < m + 1 by omega) (show 1 < 10 by omega)
        omega)]
      omega

theorem natDigitsF_lt : ∀ f n d, d ∈ natDigitsF f n → d < 10 := by
  intro f
  induction f with
  | zero => intro n d h; simp [natDigitsF] at h
  | succ f ih =>
    intro n d h
    match n, h with
    | m + 1, h =>
      rw [natDigitsF] at h
      rcases List.mem_cons.mp h with e | h'
      · omega
      · exact ih _ d h'

theorem natDigitsF_ne_nil : ∀ f n, 0 < n → n ≤ f → natDigitsF f n ≠ [] := by
  intro f n h1 h2
  obtain ⟨f2, rfl⟩ : ∃ f2, f = f2 + 1 := ⟨f - 1, by omega⟩
  obtain ⟨m, rfl⟩ : ∃ m, n = m + 1 := ⟨n - 1, by omega⟩
  rw [natDigitsF]
  simp

theorem digitVal_digitChar {d : Nat} (h : d < 10) : digitVal (digitChar d) = d := by
  interval_cases d <;> decide

theorem digitChar_isDigit {d : Nat} (h : d < 10) : (digitChar d).isDigit = true := by
  interval_cases d <;> decide

theorem hexVal_hexChar {d : Nat} (h : d < 16) : hexVal (hexChar d) = some d := by
  interval_cases d <;> decide

theorem natRepr_ne_nil (n : Nat) : natRepr n ≠ [] := by
  rw [natRepr]
  by_cases h : n = 0
  · simp [h]
  · rw [if_neg h]
    intro e
    rw [List.map_eq_nil_iff, List.reverse_eq_nil_iff] at e
    exact natDigitsF_ne_nil n n (by omega) (le_refl n) e

theorem natRepr_digits {n : Nat} {c : Char} (h : c ∈ natRepr n) : c.isDigit = true := by
  rw [natRepr] at h
  by_cases h0 : n = 0
  · rw [if_pos h0] at h
    rcases List.mem_singleton.mp h with rfl
    decide
  · rw [if_neg h0] at h
    obtain ⟨d, hd, rfl⟩ := List.mem_map.mp h
    exact digitChar_isDigit (natDigitsF_lt n n d (List.mem_reverse.mp hd))

theorem digitsToNat_natRepr (n : Nat) :
    digitsToNat ((natRepr n).map digitVal) = n := by
  rw [natRepr]
  by_cases h0 : n = 0
  · simp [h0, digitsToNat, digitVal]
  · rw [if_neg h0, digitsToNat, List.map_map]
    have hmap : (List.map (digitVal ∘ digitChar) ((natDigitsF n n).reverse))
        = List.map id ((natDigitsF n n).reverse) := by
      apply List.map_congr_left
      intro d hd
      exact digitVal_digitChar (natDigitsF_lt n n d (List.mem_reverse.mp hd))
    rw [hmap, List.map_id, List.foldl_reverse]
    exact natDigitsF_foldr n n (by omega) (le_refl n)

theorem takeWhile_all_append {p : Char → Bool} : ∀ (l t : Str),
    (∀ c ∈ l, p c = true) → headNot p t →
    (l ++ t).takeWhile p = l ∧ (l ++ t).dropWhile p = t := by
  intro l
  induction l with
  | nil =>
    intro t _ ht
    cases t with
    | nil => simp
    | cons c r =>
      have hc : p c = false := ht
      simp [List.takeWhile_cons, List.dropWhile_cons, hc]
  | cons a l ih =>
    intro t hall ht
    have ha : p a = true := hall a (List.mem_cons_self a l)
    have := ih t (fun c hc => hall c (List.mem_cons_of_mem a hc)) ht
    simp [List.takeWhile_cons, List.dropWhile_cons, ha, this.1, this.2]

theorem dropWhile_all_append {p : Char → Bool} : ∀ (l t : Str),
    (∀ c ∈ l, p c = true) → (l ++ t).dropWhile p = t.dropWhile p := by
  intro l
  induction l with
  | nil => intro t _; rfl
  | cons a l ih =>
    intro t hall
    have ha : p a = true := hall a (List.mem_cons_self a l)
    rw [List.cons_append, List.dropWhile_cons_of_pos ha]
    exact ih t (fun c hc => hall c (List.mem_cons_of_mem a hc))

theorem expectLit_append : ∀ pre s : Str, expectLit pre (pre ++ s) = some s := by
  intro pre
  induction pre with
  | nil => intro s; rfl
  | cons c cs ih => intro s; rw [List.cons_append, expectLit, if_pos rfl]; exact ih s

theorem expectLit_some : ∀ (pre s r : Str), expectLit pre s = some r → s = pre ++ r := by
  intro pre
  induction pre with
  | nil =>
    intro s r h
    rw [expectLit] at h
    exact (Option.some.injEq .. ▸ h).symm ▸ rfl
  | cons c cs ih =>
    intro s r h
    cases s with
    | nil => rw [expectLit] at h; exact absurd h (by simp)
    | cons d ds =>
      rw [expectLit] at h
      by_cases he : c = d
      · rw [if_pos he] at h
        rw [List.cons_append, he, ih ds r h]
      · rw [if_neg he] at h
        exact absurd h (by simp)

theorem parseStringBody_q (t : Str) : parseStringBody ('"' :: t) = some ([], t) := by
  rw [parseStringBody.eq_def]
  simp only []
  rw [if_pos trivial]

theorem parseStringBody_esc (e ch : Char) (t tail rest : Str)
    (he : parseStringBody.simpleEscape e = some ch) (hu : e ≠ 'u')
    (ht : parseStringBody t = some (tail, rest)) :
    parseStringBody ('\\' :: e :: t) = some (ch :: tail, rest) := by
  rw [parseStringBody.eq_def]
  simp only []
  rw [if_pos trivial, if_neg hu, he]
  simp only []
  rw [ht, if_neg (show ('\\' : Char) ≠ '"' from by decide)]

theorem parseStringBody_u00 (a b : Char) (x3 x4 : Nat) (t tail rest : Str)
    (ha : hexVal a = some x3) (hb : hexVal b = some x4)
    (hv : Nat.isValidChar (((0 * 16 + 0) * 16 + x3) * 16 + x4))
    (ht : parseStringBody t = some (tail, rest)) :
    parseStringBody ('\\' :: 'u' :: '0' :: '0' :: a :: b :: t) =
      some (Char.ofNat (((0 * 16 + 0) * 16 + x3) * 16 + x4) :: tail, rest) := by
  have h0 : hexVal '0' = some 0 := rfl
  rw [parseStringBody.eq_def]
  simp only []
  rw [if_pos trivial, if_pos trivial, h0, ha, hb]
  simp only []
  rw [if_pos hv, ht, if_neg (show ('\\' : Char) ≠ '"' from by decide)]

theorem ws_not_digit : ∀ c : Char, jsonWsChar c = true → c.isDigit = false := by
  intro c h
  rw [jsonWsChar] at h
  simp only [Bool.or_eq_true, decide_eq_true_eq] at h
  rcases h with ((rfl | rfl) | rfl) | rfl <;> decide

theorem digit_not_ws {c : Char} (h : c.isDigit = true) : jsonWsChar c = false := by
  cases hb : jsonWsChar c
  · rfl
  · rw [ws_not_digit c hb] at h; cases h

theorem skipWs_cons {c : Char} (t : Str) (hc : jsonWsChar c = false) :
    skipWs (c :: t) = c :: t := by
  rw [skipWs, List.dropWhile_cons, if_neg]
  simp [hc]

theorem skipWs_all (l t : Str) (h : ∀ c ∈ l, jsonWsChar c = true) :
    skipWs (l ++ t) = skipWs t := by
  rw [skipWs, skipWs, dropWhile_all_append l t h]

theorem parseNum_natRepr (n : Nat) (rest : Str) (hr : headNot Char.isDigit rest) :
    parseNum (natRepr n ++ rest) = some (.num (n : Int), rest) := by
  obtain ⟨d, ds, hrep⟩ : ∃ d ds, natRepr n = d :: ds := by
    cases hne : natRepr n with
    | nil => exact absurd hne (natRepr_ne_nil n)
    | cons d ds => exact ⟨d, ds, rfl⟩
  have hdig : ∀ c ∈ natRepr n, c.isDigit = true := fun c hc => natRepr_digits hc
  have htw := @takeWhile_all_append Char.isDigit (natRepr n) rest hdig hr
  rw [parseNum.eq_def]
  split
  · next r' heq =>
      exfalso
      rw [hrep, List.cons_append] at heq
      have hd : d = '-' := (List.cons.injEq ..).mp heq |>.1
      have : d.isDigit = true := hdig d (hrep ▸ List.mem_cons_self d ds)
      rw [hd] at this
      exact absurd this (by decide)
  · next =>
      rw [htw.1, htw.2, digitsToNat_natRepr n, hrep]
      simp

theorem parseNum_intRepr (n : Int) (rest : Str) (hr : headNot Char.isDigit rest) :
    parseNum (intRepr n ++ rest) = some (.num n, rest) := by
  cases n with
  | ofNat m => rw [intRepr]; exact parseNum_natRepr m rest hr
  | negSucc m =>
    have hdig : ∀ c ∈ natRepr (m + 1), c.isDigit = true := fun c hc => natRepr_digits hc
    have htw := @takeWhile_all_append Char.isDigit (natRepr (m + 1)) rest hdig hr
    rw [intRepr, List.cons_append, parseNum.eq_def]
    simp only []
    rw [htw.1, htw.2, digitsToNat_natRepr (m + 1)]
    have hne : (natRepr (m + 1)).isEmpty = false := by
      cases hrep : natRepr (m + 1) with
      | nil => exact absurd hrep (natRepr_ne_nil (m + 1))
      | cons d ds => rfl
    rw [hne, if_neg (by simp)]
    have hval : -(((m + 1 : Nat) : Int)) = Int.negSucc m := by
      rw [Int.negSucc_eq]; push_cast; ring
    rw [hval]

theorem parseStringBody_raw (c : Char) (t tail rest : Str)
    (h1 : c ≠ '"') (h2 : c ≠ '\\') (h3 : ¬ c.toNat < 32)
    (ht : parseStringBody t = some (tail, rest)) :
    parseStringBody (c :: t) = some (c :: tail, rest) := by
  rw [parseStringBody.eq_def]
  simp only []
  rw [if_neg h1, if_neg h2, if_neg h3, ht]

theorem sizeV_pos : ∀ v : Json, 1 ≤ sizeV v := by
  intro v
  cases v <;> simp [sizeV]

theorem ne_of_isDigit {d x : Char} (hd : d.isDigit = true) (hx : x.isDigit = false) :
    d ≠ x := by
  intro he
  subst he
  rw [hd] at hx
  exact absurd hx (by decide)

theorem natRepr_head (n : Nat) : ∃ d ds, natRepr n = d :: ds ∧ d.isDigit = true := by
  cases hrep : natRepr n with
  | nil => exact absurd hrep (natRepr_ne_nil n)
  | cons d ds =>
    exact ⟨d, ds, rfl,
      natRepr_digits (show d ∈ natRepr n by rw [hrep]; exact List.mem_cons_self d ds)⟩

theorem dumpsV_head : ∀ v : Json,
    ∃ c t, dumpsV v = c :: t ∧ jsonWsChar c = false ∧ c ≠ ']' ∧ c ≠ '\x7d' := by
  have hnum : ∀ n : Int, ∃ c t, intRepr n = c :: t ∧ jsonWsChar c = false ∧
      c ≠ ']' ∧ c ≠ '\x7d' := by
    intro n
    match n with
    | .ofNat m =>
      obtain ⟨d, ds, hrep, hd⟩ := natRepr_head m
      rw [intRepr, hrep]
      exact ⟨d, ds, rfl, digit_not_ws hd, ne_of_isDigit hd (by decide),
        ne_of_isDigit hd (by decide)⟩
    | .negSucc m =>
      rw [intRepr]
      refine ⟨'-', _, rfl, ?_, ?_, ?_⟩ <;> decide
  intro v
  match v with
  | .null => refine ⟨'n', _, rfl, ?_, ?_, ?_⟩ <;> decide
  | .bool true => refine ⟨'t', _, rfl, ?_, ?_, ?_⟩ <;> decide
  | .bool false => refine ⟨'f', _, rfl, ?_, ?_, ?_⟩ <;> decide
  | .num n => rw [dumpsV]; exact hnum n
  | .str s =>
    rw [dumpsV, quoteStr, List.cons_append]
    refine ⟨'"', _, rfl, ?_, ?_, ?_⟩ <;> decide
  | .arr l =>
    rw [dumpsV]
    refine ⟨'[', _, rfl, ?_, ?_, ?_⟩ <;> decide
  | .obj m =>
    rw [dumpsV]
    refine ⟨'\x7b', _, rfl, ?_, ?_, ?_⟩ <;> decide

theorem parseStringBody_quote : ∀ (s rest : Str),
    parseStringBody (s.flatMap escapeChar ++ ('"' :: rest)) = some (s, rest) := by
  intro s
  induction s with
  | nil => intro rest; simp [parseStringBody_q]
  | cons c s ih =>
    intro rest
    rw [List.flatMap_cons, List.append_assoc]
    rw [escapeChar]
    by_cases h1 : c = '"'
    · rw [if_pos h1, h1]
      exact parseStringBody_esc '"' '"' _ _ _ rfl (by decide) (ih rest)
    · rw [if_neg h1]
      by_cases h2 : c = '\\'
      · rw [if_pos h2, h2]
        exact parseStringBody_esc '\\' '\\' _ _ _ rfl (by decide) (ih rest)
      · rw [if_neg h2]
        by_cases h3 : c = '\n'
        · rw [if_pos h3, h3]
          exact parseStringBody_esc 'n' '\n' _ _ _ rfl (by decide) (ih rest)
        · rw [if_neg h3]
          by_cases h4 : c = '\t'
          · rw [if_pos h4, h4]
            exact parseStringBody_esc 't' '\t' _ _ _ rfl (by decide) (ih rest)
          · rw [if_neg h4]
            by_cases h5 : c = '\r'
            · rw [if_pos h5, h5]
              exact parseStringBody_esc 'r' '\r' _ _ _ rfl (by decide) (ih rest)
            · rw [if_neg h5]
              by_cases h6 : c.toNat = 8
              · rw [if_pos h6]
                have hc : c = Char.ofNat 8 := by rw [← h6, Char.ofNat_toNat]
                rw [hc]
                exact parseStringBody_esc 'b' (Char.ofNat 8) _ _ _ rfl (by decide)
                  (ih rest)
              · rw [if_neg h6]
                by_cases h7 : c.toNat = 12
                · rw [if_pos h7]
                  have hc : c = Char.ofNat 12 := by rw [← h7, Char.ofNat_toNat]
                  rw [hc]
                  exact parseStringBody_esc 'f' (Char.ofNat 12) _ _ _ rfl (by decide)
                    (ih rest)
                · rw [if_neg h7]
                  by_cases h8 : c.toNat < 32
                  · rw [if_pos h8]
                    have hhi : c.toNat / 16 < 16 := by omega
                    have hlo : c.toNat % 16 < 16 := by omega
                    have hn : ((0 * 16 + 0) * 16 + c.toNat / 16) * 16 + c.toNat % 16
                        = c.toNat := by omega
                    exact (parseStringBody_u00 (hexChar (c.toNat / 16))
                      (hexChar (c.toNat % 16)) (c.toNat / 16) (c.toNat % 16) _ _ _
                      (hexVal_hexChar hhi) (hexVal_hexChar hlo)
                      (Or.inl (by omega)) (ih rest)).trans
                      (by rw [hn, Char.ofNat_toNat])
                  · rw [if_neg h8]
                    exact parseStringBody_raw c _ _ _ h1 h2 (by omega) (ih rest)

theorem parseVal_badHead (fuel : Nat) (c : Char) (t : Str)
    (hws : jsonWsChar c = false) (h1 : c ≠ 'n') (h2 : c ≠ 't') (h3 : c ≠ 'f')
    (h4 : c ≠ '"') (h5 : c ≠ '[') (h6 : c ≠ '\x7b') (h7 : c ≠ '-')
    (h8 : c.isDigit = false) :
    parseVal fuel (c :: t) = none := by
  cases fuel with
  | zero => rfl
  | succ f =>
    rw [parseVal.eq_def]
    simp only []
    rw [skipWs_cons t hws]
    simp only []
    rw [if_neg h1, if_neg h2, if_neg h3, if_neg h4, if_neg h5, if_neg h6,
      if_neg (by simp [h7, h8])]

theorem parseVal_ws (fuel : Nat) (l s : Str) (h : ∀ c ∈ l, jsonWsChar c = true) :
    parseVal fuel (l ++ s) = parseVal fuel s := by
  cases fuel with
  | zero => rfl
  | succ f =>
    rw [parseVal.eq_def, parseVal.eq_def]
    simp only []
    rw [skipWs_all l s h]

theorem parseElems_ws (fuel : Nat) (l s : Str) (h : ∀ c ∈ l, jsonWsChar c = true) :
    parseElems fuel (l ++ s) = parseElems fuel s := by
  cases fuel with
  | zero => rfl
  | succ f =>
    rw [parseElems.eq_def, parseElems.eq_def]
    simp only []
    rw [parseVal_ws f l s h]

theorem parseMems_ws (fuel : Nat) (l s : Str) (h : ∀ c ∈ l, jsonWsChar c = true) :
    parseMems fuel (l ++ s) = parseMems fuel s := by
  cases fuel with
  | zero => rfl
  | succ f =>
    rw [parseMems.eq_def, parseMems.eq_def]
    simp only []
    rw [skipWs_all l s h]

theorem wsSingle : ∀ c ∈ ([' '] : Str), jsonWsChar c = true := by
  intro c hc
  rcases List.mem_singleton.mp hc with rfl
  decide

theorem numSafe_arest (v : Json) (tl : JsonArr) (rest : Str) :
    numSafe v (dumpsArest tl ++ (']' :: rest)) := by
  cases v <;> try trivial
  cases tl with
  | nil => exact (by decide : Char.isDigit ']' = false)
  | cons v2 tl2 => exact (by decide : Char.isDigit ',' = false)

theorem numSafe_orest (v : Json) (tl : JsonObj) (rest : Str) :
    numSafe v (dumpsOrest tl ++ ('\x7d' :: rest)) := by
  cases v <;> try trivial
  cases tl with
  | nil => exact (by decide : Char.isDigit '\x7d' = false)
  | cons k2 v2 tl2 => exact (by decide : Char.isDigit ',' = false)

mutual

/-- Parsing inverts serialization: a value's `dumps` text followed by any
boundary-safe remainder parses back to the value, given fuel above its
structural size. -/
theorem parseVal_dumps : ∀ (v : Json) (fuel : Nat) (rest : Str), sizeV v < fuel →
    numSafe v rest → parseVal fuel (dumpsV v ++ rest) = some (v, rest)
  | .null, fuel, rest, h, _ => by
    obtain ⟨f, rfl⟩ : ∃ f, fuel = f + 1 := ⟨fuel - 1, by omega⟩
    rw [show dumpsV .null = 'n' :: "ull".toList from rfl, List.cons_append,
      parseVal.eq_def]
    simp only []
    rw [skipWs_cons _ (by decide)]
    simp only []
    rw [if_pos (by decide), expectLit_append]
    rfl
  | .bool true, fuel, rest, h, _ => by
    obtain ⟨f, rfl⟩ : ∃ f, fuel = f + 1 := ⟨fuel - 1, by omega⟩
    rw [show dumpsV (.bool true) = 't' :: "rue".toList from rfl, List.cons_append,
      parseVal.eq_def]
    simp only []
    rw [skipWs_cons _ (by decide)]
    simp only []
    rw [if_neg (by decide), if_pos (by decide), expectLit_append]
    rfl
  | .bool false, fuel, rest, h, _ => by
    obtain ⟨f, rfl⟩ : ∃ f, fuel = f + 1 := ⟨fuel - 1, by omega⟩
    rw [show dumpsV (.bool false) = 'f' :: "alse".toList from rfl, List.cons_append,
      parseVal.eq_def]
    simp only []
    rw [skipWs_cons _ (by decide)]
    simp only []
    rw [if_neg (by decide), if_neg (by decide), if_pos (by decide), expectLit_append]
    rfl
  | .num (.ofNat m), fuel, rest, h, hn => by
    obtain ⟨f, rfl⟩ : ∃ f, fuel = f + 1 := ⟨fuel - 1, by omega⟩
    obtain ⟨d, ds, hrep, hd⟩ := natRepr_head m
    have hws := digit_not_ws hd
    rw [dumpsV, intRepr, hrep, List.cons_append, parseVal.eq_def]
    simp only []
    rw [skipWs_cons _ hws]
    simp only []
    rw [if_neg (ne_of_isDigit hd (by decide)), if_neg (ne_of_isDigit hd (by decide)),
      if_neg (ne_of_isDigit hd (by decide)), if_neg (ne_of_isDigit hd (by decide)),
      if_neg (ne_of_isDigit hd (by decide)), if_neg (ne_of_isDigit hd (by decide)),
      if_pos (by rw [hd, Bool.or_true])]
    rw [← List.cons_append, ← hrep]
    exact parseNum_natRepr m rest hn
  | .num (.negSucc m), fuel, rest, h, hn => by
    obtain ⟨f, rfl⟩ : ∃ f, fuel = f + 1 := ⟨fuel - 1, by omega⟩
    rw [dumpsV, intRepr, List.cons_append, parseVal.eq_def]
    simp only []
    rw [skipWs_cons _ (by decide)]
    simp only []
    rw [if_neg (by decide), if_neg (by decide), if_neg (by decide),
      if_neg (by decide), if_neg (by decide), if_neg (by decide),
      if_pos (by decide)]
    rw [← List.cons_append, ← intRepr]
    exact parseNum_intRepr (Int.negSucc m) rest hn
  | .str s, fuel, rest, h, _ => by
    obtain ⟨f, rfl⟩ : ∃ f, fuel = f + 1 := ⟨fuel - 1, by omega⟩
    rw [dumpsV, quoteStr, List.append_assoc, List.singleton_append, List.cons_append,
      parseVal.eq_def]
    simp only []
    rw [skipWs_cons _ (by decide)]
    simp only []
    rw [if_neg (by decide), if_neg (by decide), if_neg (by decide),
      if_pos (by decide)]
    rw [parseStringBody_quote s rest]
  | .arr .nil, fuel, rest, h, _ => by
    obtain ⟨f, rfl⟩ : ∃ f, fuel = f + 1 := ⟨fuel - 1, by omega⟩
    rw [dumpsV, dumpsA, List.nil_append, List.cons_append, List.singleton_append,
      parseVal.eq_def]
    simp only []
    rw [skipWs_cons _ (by decide)]
    simp only []
    rw [if_neg (by decide), if_neg (by decide), if_neg (by decide),
      if_neg (by decide), if_pos (by decide)]
    rw [skipWs_cons _ (by decide)]
    rfl
  | .arr (.cons v tl), fuel, rest, h, _ => by
    obtain ⟨f, rfl⟩ : ∃ f, fuel = f + 1 := ⟨fuel - 1, by omega⟩
    rw [dumpsV, dumpsA, List.cons_append, List.append_assoc, List.singleton_append,
      List.append_assoc, parseVal.eq_def]
    simp only []
    rw [skipWs_cons _ (by decide)]
    simp only []
    rw [if_neg (by decide), if_neg (by decide), if_neg (by decide),
      if_neg (by decide), if_pos (by decide)]
    obtain ⟨c0, t0, hv0, hws0, hb0, _⟩ := dumpsV_head v
    rw [hv0, List.cons_append, skipWs_cons _ hws0]
    split
    · rename_i r' heq
      exfalso
      injection heq with h1 _
      exact absurd h1 hb0
    · rw [← List.cons_append, ← hv0]
      have hsz : sizeA (.cons v tl) < f := by
        simp only [sizeV] at h; omega
      exact parseElems_dumps v tl f rest hsz
  | .obj .nil, fuel, rest, h, _ => by
    obtain ⟨f, rfl⟩ : ∃ f, fuel = f + 1 := ⟨fuel - 1, by omega⟩
    rw [dumpsV, dumpsO, List.nil_append, List.cons_append, List.singleton_append,
      parseVal.eq_def]
    simp only []
    rw [skipWs_cons _ (by decide)]
    simp only []
    rw [if_neg (by decide), if_neg (by decide), if_neg (by decide),
      if_neg (by decide), if_neg (by decide), if_pos (by decide)]
    rw [skipWs_cons _ (by decide)]
    rfl
  | .obj (.cons k v tl), fuel, rest, h, _ => by
    obtain ⟨f, rfl⟩ : ∃ f, fuel = f + 1 := ⟨fuel - 1, by omega⟩
    rw [dumpsV, dumpsO, List.cons_append, List.append_assoc, List.singleton_append,
      List.append_assoc, List.append_assoc, parseVal.eq_def]
    simp only []
    rw [skipWs_cons _ (by decide)]
    simp only []
    rw [if_neg (by decide), if_neg (by decide), if_neg (by decide),
      if_neg (by decide), if_neg (by decide), if_pos (by decide)]
    have hq : quoteStr k = '"' :: (k.flatMap escapeChar ++ ['"']) := by
      rw [quoteStr, List.cons_append]
    rw [hq, List.cons_append, skipWs_cons _ (by decide)]
    split
    · rename_i r' heq
      exfalso
      injection heq with h1 _
      exact absurd h1 (by decide)
    · rw [← List.cons_append, ← hq]
      have hsz : sizeO (.cons k v tl) < f := by
        simp only [sizeV] at h; omega
      exact parseMems_dumps k v tl f rest hsz
termination_by v fuel rest h hn => sizeV v
decreasing_by all_goals (simp only [sizeV, sizeA, sizeO]; omega)

/-- Parsing a nonempty serialized element list (after the opening bracket)
returns the array. -/
theorem parseElems_dumps : ∀ (v : Json) (tl : JsonArr) (fuel : Nat) (rest : Str),
    sizeA (.cons v tl) < fuel →
    parseElems fuel (dumpsV v ++ (dumpsArest tl ++ (']' :: rest))) =
      some (.arr (.cons v tl), rest)
  | v, .nil, fuel, rest, h => by
    obtain ⟨f, rfl⟩ : ∃ f, fuel = f + 1 := ⟨fuel - 1, by omega⟩
    rw [parseElems.eq_def]
    simp only []
    have hb : sizeV v < f := by simp only [sizeA] at h; omega
    rw [parseVal_dumps v f _ hb (numSafe_arest v .nil rest)]
    simp only []
    rw [dumpsArest, List.nil_append, skipWs_cons _ (by decide)]
    rfl
  | v, .cons v2 tl2, fuel, rest, h => by
    obtain ⟨f, rfl⟩ : ∃ f, fuel = f + 1 := ⟨fuel - 1, by omega⟩
    rw [parseElems.eq_def]
    simp only []
    have hb : sizeV v < f := by simp only [sizeA] at h; omega
    rw [parseVal_dumps v f _ hb (numSafe_arest v (.cons v2 tl2) rest)]
    simp only []
    rw [dumpsArest, List.cons_append, List.cons_append, skipWs_cons _ (by decide)]
    simp only []
    rw [show (' ' : Char) :: ((dumpsV v2 ++ dumpsArest tl2) ++ (']' :: rest)) =
      [' '] ++ ((dumpsV v2 ++ dumpsArest tl2) ++ (']' :: rest)) from rfl]
    rw [parseElems_ws f [' '] _ wsSingle, List.append_assoc]
    have hsz : sizeA (.cons v2 tl2) < f := by
      simp only [sizeA] at h ⊢; omega
    rw [parseElems_dumps v2 tl2 f rest hsz]
termination_by v tl fuel rest h => sizeA (JsonArr.cons v tl)
decreasing_by all_goals (simp only [sizeV, sizeA, sizeO]; omega)

/-- Parsing a nonempty serialized member list (after the opening brace)
returns the object. -/
theorem parseMems_dumps : ∀ (k : Str) (v : Json) (tl : JsonObj) (fuel : Nat)
    (rest : Str), sizeO (.cons k v tl) < fuel →
    parseMems fuel
      (quoteStr k ++ ((':' :: ' ' :: dumpsV v) ++ (dumpsOrest tl ++ ('\x7d' :: rest)))) =
      some (.obj (.cons k v tl), rest)
  | k, v, .nil, fuel, rest, h => by
    obtain ⟨f, rfl⟩ : ∃ f, fuel = f + 1 := ⟨fuel - 1, by omega⟩
    rw [parseMems.eq_def]
    simp only []
    have hq : quoteStr k = '"' :: (k.flatMap escapeChar ++ ['"']) := by
      rw [quoteStr, List.cons_append]
    rw [hq, List.cons_append, skipWs_cons _ (by decide)]
    simp only []
    rw [List.append_assoc, List.singleton_append]
    rw [parseStringBody_quote k _]
    simp only []
    rw [List.cons_append, List.cons_append, skipWs_cons _ (by decide)]
    simp only []
    rw [show (' ' : Char) :: (dumpsV v ++ (dumpsOrest JsonObj.nil ++ ('\x7d' :: rest))) =
      [' '] ++ (dumpsV v ++ (dumpsOrest JsonObj.nil ++ ('\x7d' :: rest))) from rfl]
    rw [parseVal_ws f [' '] _ wsSingle]
    have hb : sizeV v < f := by simp only [sizeO] at h; omega
    rw [parseVal_dumps v f _ hb (numSafe_orest v .nil rest)]
    simp only []
    rw [dumpsOrest, List.nil_append, skipWs_cons _ (by decide)]
    rfl
  | k, v, .cons k2 v2 tl2, fuel, rest, h => by
    obtain ⟨f, rfl⟩ : ∃ f, fuel = f + 1 := ⟨fuel - 1, by omega⟩
    rw [parseMems.eq_def]
    simp only []
    have hq : quoteStr k = '"' :: (k.flatMap escapeChar ++ ['"']) := by
      rw [quoteStr, List.cons_append]
    rw [hq, List.cons_append, skipWs_cons _ (by decide)]
    simp only []
    rw [List.append_assoc, List.singleton_append]
    rw [parseStringBody_quote k _]
    simp only []
    rw [List.cons_append, List.cons_append, skipWs_cons _ (by decide)]
    simp only []
    rw [show (' ' : Char) ::
        (dumpsV v ++ (dumpsOrest (JsonObj.cons k2 v2 tl2) ++ ('\x7d' :: rest))) =
      [' '] ++ (dumpsV v ++ (dumpsOrest (JsonObj.cons k2 v2 tl2) ++ ('\x7d' :: rest)))
      from rfl]
    rw [parseVal_ws f [' '] _ wsSingle]
    have hb : sizeV v < f := by simp only [sizeO] at h; omega
    rw [parseVal_dumps v f _ hb (numSafe_orest v (.cons k2 v2 tl2) rest)]
    simp only []
    rw [dumpsOrest, List.cons_append, List.cons_append, skipWs_cons _ (by decide)]
    simp only []
    rw [show (' ' : Char) ::
        (((quoteStr k2 ++ (':' :: ' ' :: dumpsV v2)) ++ dumpsOrest tl2) ++
          ('\x7d' :: rest)) =
      [' '] ++ (((quoteStr k2 ++ (':' :: ' ' :: dumpsV v2)) ++ dumpsOrest tl2) ++
        ('\x7d' :: rest)) from rfl]
    rw [parseMems_ws f [' '] _ wsSingle, List.append_assoc, List.append_assoc]
    have hsz : sizeO (.cons k2 v2 tl2) < f := by
      simp only [sizeO] at h ⊢; omega
    rw [parseMems_dumps k2 v2 tl2 f rest hsz]
termination_by k v tl fuel rest h => sizeO (JsonObj.cons k v tl)
decreasing_by all_goals (simp only [sizeV, sizeA, sizeO]; omega)

end

mutual

/-- The structural size never exceeds the serialized length, so
`len + 1` fuel always suffices. -/
theorem sizeV_le : ∀ v : Json, sizeV v ≤ (dumpsV v).length
  | .null => by simp [sizeV, dumpsV]
  | .bool true => by simp [sizeV, dumpsV]
  | .bool false => by simp [sizeV, dumpsV]
  | .num n => by
    have hne : intRepr n ≠ [] := by
      cases n with
      | ofNat m => rw [intRepr]; exact natRepr_ne_nil m
      | negSucc m => rw [intRepr]; simp
    have hpos := List.length_pos.mpr hne
    simp only [sizeV, dumpsV]
    omega
  | .str s => by
    simp only [sizeV, dumpsV, quoteStr]
    simp [List.length_append]
  | .arr l => by
    have hl : sizeA l ≤ (dumpsA l).length + 1 := by
      match l with
      | .nil => simp [sizeA, dumpsA]
      | .cons v tl =>
        have h1 := sizeV_le v
        have h2 := sizeArest_le tl
        simp only [sizeA, dumpsA, List.length_append]
        omega
    simp only [sizeV, dumpsV]
    simp only [List.length_cons, List.length_append]
    simp at hl ⊢
    omega
  | .obj m => by
    have hl : sizeO m ≤ (dumpsO m).length + 1 := by
      match m with
      | .nil => simp [sizeO, dumpsO]
      | .cons k v tl =>
        have h1 := sizeV_le v
        have h2 := sizeOrest_le tl
        simp only [sizeO, dumpsO, List.length_append, List.length_cons]
        omega
    simp only [sizeV, dumpsV]
    simp only [List.length_cons, List.length_append]
    simp at hl ⊢
    omega

theorem sizeArest_le : ∀ l : JsonArr, sizeA l ≤ (dumpsArest l).length
  | .nil => by simp [sizeA, dumpsArest]
  | .cons v tl => by
    have h1 := sizeV_le v
    have h2 := sizeArest_le tl
    simp only [sizeA, dumpsArest, List.length_append, List.length_cons]
    omega

theorem sizeOrest_le : ∀ m : JsonObj, sizeO m ≤ (dumpsOrest m).length
  | .nil => by simp [sizeO, dumpsOrest]
  | .cons k v tl => by
    have h1 := sizeV_le v
    have h2 := sizeOrest_le tl
    simp only [sizeO, dumpsOrest, List.length_append, List.length_cons]
    omega

end

/-- `json.loads` inverts `json.dumps`. -/
theorem loads_dumps (v : Json) : loads (dumpsV v) = some v := by
  rw [loads]
  have h1 : parseVal ((dumpsV v).length + 1) (dumpsV v) = some (v, []) := by
    have h2 := parseVal_dumps v ((dumpsV v).length + 1) []
      (by have := sizeV_le v; omega) (by cases v <;> trivial)
    simpa using h2
  rw [h1]
  rfl

theorem isPrefixB_iff : ∀ a b : Str, isPrefixB a b = true ↔ ∃ t, b = a ++ t := by
  intro a
  induction a with
  | nil => intro b; simp [isPrefixB]
  | cons c as ih =>
    intro b
    cases b with
    | nil => simp [isPrefixB]
    | cons d bs =>
      rw [isPrefixB]
      simp only [Bool.and_eq_true, beq_iff_eq]
      constructor
      · rintro ⟨rfl, hp⟩
        obtain ⟨t, rfl⟩ := (ih bs).mp hp
        exact ⟨t, rfl⟩
      · rintro ⟨t, ht⟩
        injection ht with h1 h2
        exact ⟨h1.symm, (ih bs).mpr ⟨t, h2⟩⟩

theorem isInfixB_iff : ∀ b a : Str, isInfixB a b = true ↔ ∃ p t, b = p ++ a ++ t := by
  intro b
  induction b with
  | nil =>
    intro a
    rw [isInfixB]
    constructor
    · intro h
      exact ⟨[], [], by simp [List.isEmpty_iff.mp h]⟩
    · rintro ⟨p, t, ht⟩
      have : p = [] ∧ a = [] ∧ t = [] := by
        rcases List.append_eq_nil.mp ht.symm with ⟨h1, h2⟩
        rcases List.append_eq_nil.mp h1 with ⟨h3, h4⟩
        exact ⟨h3, h4, h2⟩
      simp [this.2.1]
  | cons d bs ih =>
    intro a
    rw [isInfixB, Bool.or_eq_true, isPrefixB_iff, ih]
    constructor
    · rintro (⟨t, ht⟩ | ⟨p, t, hp⟩)
      · exact ⟨[], t, by simpa using ht⟩
      · exact ⟨d :: p, t, by simp [hp]⟩
    · rintro ⟨p, t, hp⟩
      cases p with
      | nil => exact Or.inl ⟨t, by simpa using hp⟩
      | cons x xs =>
        right
        injection hp with h1 h2
        exact ⟨xs, t, h2⟩

theorem findSub_none : ∀ (pat s : Str), pat ≠ [] → isInfixB pat s = false →
    findSub pat s = none := by
  intro pat s hne
  induction s with
  | nil =>
    intro _
    rw [findSub, if_neg]
    simp [List.isEmpty_iff, hne]
  | cons c rest ih =>
    intro h
    rw [isInfixB] at h
    rcases Bool.or_eq_false_iff.mp h with ⟨h1, h2⟩
    rw [findSub, if_neg (by simp [h1]), ih h2]

theorem findSub_split : ∀ (pat pre rest : Str),
    (∀ p q, pre = p ++ q → q ≠ [] → isPrefixB pat (q ++ rest) = false) →
    findSub pat (pre ++ rest) =
      (findSub pat rest).map (fun pr => (pre ++ pr.1, pr.2)) := by
  intro pat pre
  induction pre with
  | nil =>
    intro rest _
    simp only [List.nil_append]
    cases h : findSub pat rest with
    | none => rfl
    | some pr => cases pr with | mk a b => rfl
  | cons c pre ih =>
    intro rest hno
    have hfalse : isPrefixB pat ((c :: pre) ++ rest) = false :=
      hno [] (c :: pre) rfl (by simp)
    rw [List.cons_append] at hfalse
    rw [List.cons_append, findSub, if_neg (by simp [hfalse]),
      ih rest (fun p q hpq hq => hno (c :: p) q (by rw [hpq, List.cons_append]) hq)]
    cases h : findSub pat rest with
    | none => rfl
    | some pr => cases pr with | mk a b => rfl

theorem findSub_at (pat t : Str) (hne : pat ≠ []) :
    findSub pat (pat ++ t) = some ([], t) := by
  cases pat with
  | nil => exact absurd rfl hne
  | cons c cs =>
    rw [List.cons_append, findSub,
      if_pos ((isPrefixB_iff _ _).mpr ⟨t, by rw [List.cons_append]⟩),
      show c :: (cs ++ t) = (c :: cs) ++ t from rfl, List.drop_left]

theorem append_singleton_eq : ∀ (p d q : Str) (ch : Char), d ++ [ch] = p ++ q →
    q ≠ [] → ∃ q', q = q' ++ [ch] ∧ d = p ++ q' := by
  intro p
  induction p with
  | nil =>
    intro d q ch hpq _
    have h' : d ++ [ch] = q := by simpa using hpq
    exact ⟨d, h'.symm, by simp⟩
  | cons x p ih =>
    intro d q ch hpq hq
    cases d with
    | nil =>
      rw [List.nil_append, List.cons_append] at hpq
      injection hpq with h1 h2
      rcases List.append_eq_nil.mp h2.symm with ⟨_, h4⟩
      exact absurd h4 hq
    | cons y d2 =>
      rw [List.cons_append, List.cons_append] at hpq
      injection hpq with h1 h2
      obtain ⟨q', hq1, hq2⟩ := ih d2 q ch h2 hq
      exact ⟨q', hq1, by rw [List.cons_append, h1, hq2]⟩

theorem fence_clear (d : Str) (hm : isInfixB ("```".toList) d = false) :
    ∀ p q, d ++ ['\n'] = p ++ q → q ≠ [] →
      isPrefixB ("```".toList) (q ++ "```".toList) = false := by
  intro p q hpq hq
  cases hb : isPrefixB ("```".toList) (q ++ "```".toList) with
  | false => rfl
  | true =>
    exfalso
    obtain ⟨q', rfl, hd⟩ := append_singleton_eq p d q '\n' hpq hq
    obtain ⟨t, ht⟩ := (isPrefixB_iff _ _).mp hb
    match q', ht with
    | [], ht =>
      injection ht with h1 _
      exact absurd h1 (by decide)
    | [a], ht =>
      injection ht with h1 ht2
      injection ht2 with h2 _
      exact absurd h2 (by decide)
    | a :: b :: q3, ht =>
      injection ht with h1 ht2
      injection ht2 with h2 ht3
      cases q3 with
      | nil =>
        injection ht3 with h3 _
        exact absurd h3 (by decide)
      | cons e q4 =>
        injection ht3 with h3 _
        rw [show d = p ++ ((a :: b :: e :: q4)) from hd] at hm
        rw [h1, h2, h3] at hm
        have : isInfixB ("```".toList) (p ++ ('`' :: '`' :: '`' :: q4)) = true :=
          (isInfixB_iff _ _).mpr ⟨p, q4, by simp⟩
        rw [this] at hm
        cases hm

theorem findSub_fence (d : Str) (hm : isInfixB ("```".toList) d = false) :
    findSub ("```".toList) ((d ++ ['\n']) ++ "```".toList) =
      some (d ++ ['\n'], []) := by
  rw [findSub_split ("```".toList) (d ++ ['\n']) ("```".toList) (fence_clear d hm),
    show findSub ("```".toList) ("```".toList) = some ([], []) from rfl]
  simp

theorem findBlocksF_nil : ∀ f, findBlocksF f [] = [] := by
  intro f
  cases f <;> rfl

theorem dropJsonTag_json (t : Str) : dropJsonTag ("json".toList ++ t) = t := by
  rw [dropJsonTag, if_pos ((isPrefixB_iff _ _).mpr ⟨t, rfl⟩),
    show ("json".toList ++ t) = "json".toList ++ t from rfl]
  exact List.drop_left "json".toList t

theorem dropJsonTag_nl (t : Str) : dropJsonTag ('\n' :: t) = '\n' :: t := by
  rw [dropJsonTag, if_neg]
  simp [isPrefixB]

theorem stripStr_wrap (mid : Str) :
    stripStr (('\x7b' :: (mid ++ ['\x7d'])) ++ ['\n']) = '\x7b' :: (mid ++ ['\x7d']) := by
  rw [stripStr, List.cons_append, List.dropWhile_cons, if_neg (by decide),
    List.reverse_cons, List.append_assoc, List.reverse_append]
  simp only [List.reverse_append, List.reverse_cons, List.reverse_nil,
    List.nil_append, List.singleton_append, List.append_assoc, List.cons_append]
  rw [List.dropWhile_cons, if_pos (by decide), List.dropWhile_cons,
    if_neg (by decide)]
  simp [List.reverse_append]

theorem loads_head_bad (c : Char) (t : Str)
    (hws : jsonWsChar c = false) (h1 : c ≠ 'n') (h2 : c ≠ 't') (h3 : c ≠ 'f')
    (h4 : c ≠ '"') (h5 : c ≠ '[') (h6 : c ≠ '\x7b') (h7 : c ≠ '-')
    (h8 : c.isDigit = false) : loads (c :: t) = none := by
  rw [loads, parseVal_badHead _ c t hws h1 h2 h3 h4 h5 h6 h7 h8]

theorem skipPyWs_nl_brace (mid rest : Str) :
    skipPyWs ('\n' :: (('\x7b' :: mid) ++ rest)) = ('\x7b' :: mid) ++ rest := by
  rw [skipPyWs, List.dropWhile_cons, if_pos (by decide), List.cons_append,
    List.dropWhile_cons, if_neg (by decide)]

theorem braceSpan_prose (p0 mid S : Str)
    (hP : ∀ ch ∈ p0, ch ≠ '\x7b') (hS : ∀ ch ∈ S, ch ≠ '\x7d') :
    braceSpan (p0 ++ (('\x7b' :: (mid ++ ['\x7d'])) ++ S)) =
      some ('\x7b' :: (mid ++ ['\x7d'])) := by
  rw [braceSpan]
  have hall : ∀ ch ∈ p0, (!(ch == '\x7b')) = true := by
    intro ch hch
    simp [hP ch hch]
  rw [dropWhile_all_append p0 _ hall, List.cons_append, List.dropWhile_cons,
    if_neg (by decide)]
  simp only []
  rw [List.reverse_cons]
  simp only [List.reverse_append, List.reverse_cons, List.reverse_nil,
    List.nil_append, List.singleton_append, List.append_assoc, List.cons_append]
  have hallS : ∀ ch ∈ S.reverse, (!(ch == '\x7d')) = true := by
    intro ch hch
    simp [hS ch (List.mem_reverse.mp hch)]
  rw [dropWhile_all_append S.reverse _ hallS, List.dropWhile_cons,
    if_neg (by decide)]
  simp only []
  simp [List.reverse_append]

theorem tryBlocks_fence (m : JsonObj) :
    tryLoadsBlocks [dumpsV (.obj m) ++ ['\n']] = some (.obj m) := by
  rw [tryLoadsBlocks]
  have hd : dumpsV (.obj m) = '\x7b' :: (dumpsO m ++ ['\x7d']) := by rw [dumpsV]
  rw [hd, stripStr_wrap, ← hd, loads_dumps]

theorem findBlocks_tag (m : JsonObj)
    (hm : isInfixB ("```".toList) (dumpsV (.obj m)) = false) :
    findBlocks ("```json\n".toList ++ (dumpsV (.obj m) ++ "\n```".toList)) =
      [dumpsV (.obj m) ++ ['\n']] := by
  rw [findBlocks, findBlocksF,
    show "```json\n".toList ++ (dumpsV (.obj m) ++ "\n```".toList) =
      "```".toList ++ ("json".toList ++ ('\n' :: (dumpsV (.obj m) ++ "\n```".toList)))
      from rfl,
    findSub_at _ _ (by decide)]
  simp only []
  rw [dropJsonTag_json]
  have hd : dumpsV (.obj m) = '\x7b' :: (dumpsO m ++ ['\x7d']) := by rw [dumpsV]
  rw [hd, skipPyWs_nl_brace, ← hd,
    show dumpsV (.obj m) ++ "\n```".toList =
      (dumpsV (.obj m) ++ ['\n']) ++ "```".toList from by
        rw [List.append_assoc]; rfl,
    findSub_fence _ hm]
  simp only []
  rw [findBlocksF_nil]

theorem findBlocks_notag (m : JsonObj)
    (hm : isInfixB ("```".toList) (dumpsV (.obj m)) = false) :
    findBlocks ("```\n".toList ++ (dumpsV (.obj m) ++ "\n```".toList)) =
      [dumpsV (.obj m) ++ ['\n']] := by
  rw [findBlocks, findBlocksF,
    show "```\n".toList ++ (dumpsV (.obj m) ++ "\n```".toList) =
      "```".toList ++ ('\n' :: (dumpsV (.obj m) ++ "\n```".toList)) from rfl,
    findSub_at _ _ (by decide)]
  simp only []
  rw [dropJsonTag_nl]
  have hd : dumpsV (.obj m) = '\x7b' :: (dumpsO m ++ ['\x7d']) := by rw [dumpsV]
  rw [hd, skipPyWs_nl_brace, ← hd,
    show dumpsV (.obj m) ++ "\n```".toList =
      (dumpsV (.obj m) ++ ['\n']) ++ "```".toList from by
        rw [List.append_assoc]; rfl,
    findSub_fence _ hm]
  simp only []
  rw [findBlocksF_nil]

theorem extract_tag (m : JsonObj)
    (hm : isInfixB ("```".toList) (dumpsV (.obj m)) = false) :
    extract_json_from_llm_response
      ("```json\n".toList ++ (dumpsV (.obj m) ++ "\n```".toList)) = .ok (.obj m) := by
  have hload : loads ("```json\n".toList ++ (dumpsV (.obj m) ++ "\n```".toList))
      = none := by
    rw [show "```json\n".toList ++ (dumpsV (.obj m) ++ "\n```".toList) =
      '`' :: ("``json\n".toList ++ (dumpsV (.obj m) ++ "\n```".toList)) from rfl]
    exact loads_head_bad '`' _ (by decide) (by decide) (by decide) (by decide)
      (by decide) (by decide) (by decide) (by decide) (by decide)
  rw [extract_json_from_llm_response, hload]
  simp only []
  rw [findBlocks_tag m hm, tryBlocks_fence m]

theorem extract_notag (m : JsonObj)
    (hm : isInfixB ("```".toList) (dumpsV (.obj m)) = false) :
    extract_json_from_llm_response
      ("```\n".toList ++ (dumpsV (.obj m) ++ "\n```".toList)) = .ok (.obj m) := by
  have hload : loads ("```\n".toList ++ (dumpsV (.obj m) ++ "\n```".toList))
      = none := by
    rw [show "```\n".toList ++ (dumpsV (.obj m) ++ "\n```".toList) =
      '`' :: ("``\n".toList ++ (dumpsV (.obj m) ++ "\n```".toList)) from rfl]
    exact loads_head_bad '`' _ (by decide) (by decide) (by decide) (by decide)
      (by decide) (by decide) (by decide) (by decide) (by decide)
  rw [extract_json_from_llm_response, hload]
  simp only []
  rw [findBlocks_notag m hm, tryBlocks_fence m]

theorem extract_prose (m : JsonObj) (c : Char) (P S : Str) (hc : proseHead c)
    (hP : '\x7b' ∉ (c :: P)) (hS : '\x7d' ∉ S)
    (hnf : isInfixB ("```".toList) ((c :: P) ++ (dumpsV (.obj m) ++ S)) = false) :
    extract_json_from_llm_response ((c :: P) ++ (dumpsV (.obj m) ++ S)) =
      .ok (.obj m) := by
  obtain ⟨hws, h1, h2, h3, h4, h5, h6, h7, h8⟩ := hc
  have hload : loads ((c :: P) ++ (dumpsV (.obj m) ++ S)) = none := by
    rw [List.cons_append]
    exact loads_head_bad c _ hws h1 h2 h3 h4 h5 h6 h7 h8
  rw [extract_json_from_llm_response, hload]
  simp only []
  rw [findBlocks, findBlocksF, findSub_none _ _ (by decide) hnf]
  simp only []
  rw [tryLoadsBlocks]
  simp only []
  have hd : dumpsV (.obj m) = '\x7b' :: (dumpsO m ++ ['\x7d']) := by rw [dumpsV]
  rw [hd, braceSpan_prose (c :: P) (dumpsO m) S
    (fun ch hch he => hP (he ▸ hch)) (fun ch hch he => hS (he ▸ hch))]
  rw [tryLoadsSpan, ← hd, loads_dumps]

theorem extract_error_shape : ∀ (t e : Str),
    extract_json_from_llm_response t = .error e →
    e = parseErrMsgHead ++ t.take 3000 ++ "...".toList := by
  intro t e h
  rw [extract_json_from_llm_response] at h
  cases hl : loads t with
  | some v => rw [hl] at h; simp at h
  | none =>
    rw [hl] at h
    cases hb : tryLoadsBlocks (findBlocks t) with
    | some v => rw [hb] at h; simp at h
    | none =>
      rw [hb] at h
      cases hs : tryLoadsSpan (braceSpan t) with
      | some v => rw [hs] at h; simp at h
      | none =>
        rw [hs] at h
        simp only [] at h
        injection h with h1
        exact h1.symm

/-- C8: for a JSON object serialized by `json.dumps`, the Response-JSON
Extractor recovers exactly the original object from its serialization
wrapped in a fenced code block with a `json` language tag, wrapped in a
fenced code block without a tag, or embedded in surrounding prose — the
fenced cases provided the serialization contains no triple-backtick, and the
prose case provided the text as a whole contains no triple-backtick, the
prose before the object contains no open brace, the prose after it contains
no close brace, and the prose opens with a character that starts no JSON
token; and whenever no strategy succeeds the extractor fails with a parse
error whose message is its diagnostic prefix followed by the first 3000
characters of the original text. (The unconditional original claim is
refuted by `extract_roundtrip_counterexample`.) -/
theorem extract_roundtrip (m : JsonObj) (c : Char) (P S : Str)
    (hm : isInfixB ("```".toList) (dumpsV (.obj m)) = false)
    (hc : proseHead c)
    (hP : '\x7b' ∉ (c :: P))
    (hS : '\x7d' ∉ S)
    (hnf : isInfixB ("```".toList) ((c :: P) ++ (dumpsV (.obj m) ++ S)) = false) :
    extract_json_from_llm_response
        ("```json\n".toList ++ (dumpsV (.obj m) ++ "\n```".toList)) = .ok (.obj m) ∧
    extract_json_from_llm_response
        ("```\n".toList ++ (dumpsV (.obj m) ++ "\n```".toList)) = .ok (.obj m) ∧
    extract_json_from_llm_response ((c :: P) ++ (dumpsV (.obj m) ++ S)) =
      .ok (.obj m) ∧
    (∀ t e, extract_json_from_llm_response t = .error e →
      e = parseErrMsgHead ++ t.take 3000 ++ "...".toList) :=
  ⟨extract_tag m hm, extract_notag m hm, extract_prose m c P S hc hP hS hnf,
    extract_error_shape⟩

/-- Concrete run of the round-trip: the object `{"a": 7}` fenced with a tag
and embedded in prose, both extracted back exactly. -/
theorem extract_roundtrip_witness :
    extract_json_from_llm_response
        ("```json\n".toList ++ (dumpsV (.obj wObj) ++ "\n```".toList)) =
      .ok (.obj wObj) ∧
    extract_json_from_llm_response
        (('S' :: "ure: ".toList) ++ (dumpsV (.obj wObj) ++ " ok".toList)) =
      .ok (.obj wObj) :=
  ⟨(extract_roundtrip wObj 'S' ("ure: ".toList) (" ok".toList) (by decide)
      (by unfold proseHead; decide) (by decide) (by decide) (by decide)).1,
   (extract_roundtrip wObj 'S' ("ure: ".toList) (" ok".toList) (by decide)
      (by unfold proseHead; decide) (by decide) (by decide) (by decide)).2.2.1⟩

/-- The unconditional claim fails: this object's tagged fenced wrapping
extracts to the number 7, not to the object, because the code-block scan
pairs the fences inside its string values. -/
theorem extract_roundtrip_counterexample :
    extract_json_from_llm_response
        ("```json\n".toList ++ (dumpsV (.obj wCex) ++ "\n```".toList)) =
      .ok (.num 7) ∧
    Json.num 7 ≠ Json.obj wCex :=
  ⟨rfl, fun h => Json.noConfusion h⟩

/-- C6: when the extractor cannot recover JSON from the model text, the
prediction generator does not raise — the written file carries an empty
edits list, an error field summarizing the parse failure (the prefixed
first 200 characters of the JSONDecodeError text), and the first 1000
characters of the raw response; when extraction yields an object, both
fields are absent and the edits come from the object's `edits` key. -/
theorem generate_predictions_parse_recovery (content : Str) :
    ((∃ e, extract_json_from_llm_response content = .error e) →
      generate_from_response content =
        .ok { edits := Json.arr .nil
              error := some (parseErrPrefix ++
                (strJsonDecodeError (parseErrMsgHead ++ content.take 3000 ++
                  "...".toList)).take 200 ++ "...".toList)
              raw_response := some (content.take 1000) }) ∧
    (∀ mems, extract_json_from_llm_response content = .ok (.obj mems) →
      generate_from_response content =
        .ok { edits := (lookupMem ("edits".toList) mems).getD (Json.arr .nil)
              error := none
              raw_response := none }) := by
  constructor
  · rintro ⟨e, he⟩
    have hmsg := extract_error_shape content e he
    rw [generate_from_response, he]
    simp only []
    rw [hmsg]
  · intro mems hok
    rw [generate_from_response, hok]

end LittleDorrit
